import Mathlib

/-!
Verification development for the zig-rtf RTF parsing engine.

The repository ships the C API headers (src/src/c_api.h,
src/examples/c_bindings/zigrtf.h, zigrtf_improved.h, zigrtf_unified.h) and
example client programs; the parsing engine itself is declared by those
headers but its implementation is not part of the source tree under src/.
The engine below is therefore modelled from the specification (spec.md,
sections 3, 4.1, 4.2, 4.3, 4.5 and 7): tokenizer, group stack and
formatting state machine, document builder, error and progress controller.
Bytes are modelled as characters of a list; machine integer widths are
irrelevant to the claims and are modelled by Nat and Int.
-/

/-- Modelled from the spec: the resolved Style record of section 3
(bold, italic, underline, strikethrough, superscript, subscript, hidden,
all-caps, small-caps, font index, font size in half-points,
foreground and background color indices), also matching RtfStyleInfo in
src/examples/c_bindings/zigrtf_improved.h. -/
structure Style where
  bold : Bool
  italic : Bool
  underline : Bool
  strikethrough : Bool
  superscript : Bool
  subscript : Bool
  hidden : Bool
  allCaps : Bool
  smallCaps : Bool
  fontIndex : Int
  fontSize : Nat
  fgColor : Int
  bgColor : Int
deriving DecidableEq

/-- Modelled from the spec: the default style has no flags set, font index
-1 (unset), size 0 (unset), color indices -1 (default). -/
def defaultStyle : Style :=
  ⟨false, false, false, false, false, false, false, false, false, -1, 0, -1, -1⟩

/-- Modelled from the spec: a group scope is a snapshot of a Style plus an
active flag (false inside destination groups whose output is suppressed). -/
structure Scope where
  style : Style
  active : Bool
deriving DecidableEq

/-- Modelled from the spec: a run is a contiguous span of the text buffer
(byte offset range) with a Style snapshot, matching rtf_run of
src/src/c_api.h (offset plus length instead of a pointer). -/
structure Run where
  start : Nat
  length : Nat
  style : Style
deriving DecidableEq

/-- Modelled from the spec: token kinds of the tokenizer of section 4.1. -/
inductive Token where
  | groupOpen : Token
  | groupClose : Token
  | ctrlWord (name : List Char) (param : Option Int) : Token
  | ctrlSym (c : Char) : Token
  | textTok (s : List Char) : Token
  | binTok (bytes : List Char) : Token
deriving DecidableEq

/-- Modelled from the spec: the error taxonomy of section 7 (Canceled is an
outcome, not an error kind, per section 4.5). -/
inductive ErrKind where
  | UnbalancedGroup
  | DepthExceeded
  | TruncatedBinary
  | MalformedControlWord
  | InvalidEncoding
  | UnterminatedDocument
deriving DecidableEq

/-- Modelled from the spec: the terminal result classification of
section 7. -/
inductive Outcome where
  | Success
  | SuccessWithRecoveredErrors
  | Canceled
  | Failed (k : ErrKind)
deriving DecidableEq

/-- Model of the RtfParseOptions structure of
src/examples/c_bindings/zigrtf_improved.h lines 90-117 (field for field;
uint16 and uint32 fields are modelled as Nat). -/
structure RtfParseOptions where
  strict_mode : Bool
  max_depth : Nat
  use_memory_mapping : Bool
  memory_mapping_threshold : Nat
  progress_interval : Nat
  extract_metadata : Bool
  detect_document_type : Bool
  auto_fix_errors : Bool
deriving DecidableEq

/-- Model of RTF_DEFAULT_OPTIONS of
src/examples/c_bindings/zigrtf_improved.h lines 274-284, value for value. -/
def RTF_DEFAULT_OPTIONS : RtfParseOptions :=
  ⟨false, 100, true, 1024 * 1024, 64 * 1024, true, true, true⟩

/-- Modelled from the spec: rtf2_parse_options_create (declared at
src/examples/c_bindings/zigrtf_improved.h lines 360-364, implementation not
in src/) returns a structure with the default values. -/
def rtf2_parse_options_create : RtfParseOptions := RTF_DEFAULT_OPTIONS

/- ======================== Tokenizer ======================== -/

/-- Modelled from the spec: characters that accumulate into a Text token;
backslash, braces, and the ignored carriage return and line feed end a
text span (section 4.1). -/
def isPlainText (c : Char) : Bool :=
  !(c = '\\' || c = '\x7b' || c = '\x7d' || c = '\r' || c = '\n')

/-- Value of a hexadecimal digit character, if any. -/
def hexVal (c : Char) : Option Nat :=
  if '0' ≤ c ∧ c ≤ '9' then some (c.toNat - 48)
  else if 'a' ≤ c ∧ c ≤ 'f' then some (c.toNat - 87)
  else if 'A' ≤ c ∧ c ≤ 'F' then some (c.toNat - 55)
  else none

/-- Value of a decimal digit string (most significant first). -/
def digitsVal (ds : List Char) : Nat :=
  ds.foldl (fun a c => a * 10 + (c.toNat - 48)) 0

/-- Modelled from the spec: the optional signed numeric parameter of a
control word, a leading-minus digit sequence (section 4.1); returns the
parameter and the unconsumed remainder. -/
def parseParam (r : List Char) : Option Int × List Char :=
  if r.head? = some '-' then
    let r2 := r.tail
    let digs := r2.takeWhile Char.isDigit
    if digs = [] then (none, r)
    else (some (-((digitsVal digs : Nat) : Int)), r2.dropWhile Char.isDigit)
  else
    let digs := r.takeWhile Char.isDigit
    if digs = [] then (none, r)
    else (some ((digitsVal digs : Nat) : Int), r.dropWhile Char.isDigit)

/-- Modelled from the spec: the single optional trailing space that
terminates a control word is consumed, not emitted (section 4.1). -/
def eatSpace (r : List Char) : List Char :=
  if r.head? = some ' ' then r.tail else r

/-- Result of scanning one token. -/
inductive ScanResult where
  | done
  | tok (t : Token) (rest : List Char)
  | err (k : ErrKind) (remaining : List Char)
deriving DecidableEq

/-- Modelled from the spec: scanning of a control sequence after the
backslash (section 4.1): letters form a control word name (bounded length,
else MalformedControlWord), then an optional signed parameter and one
optional trailing space; the word bin with positive parameter n consumes
the next n raw bytes as a Binary token and reports TruncatedBinary when
fewer bytes remain; a two-hex-digit escape becomes a decoded text byte; any
other non-letter is a control symbol. -/
def scanControl (r : List Char) : ScanResult :=
  match r with
  | [] => .err .MalformedControlWord []
  | c :: r2 =>
    if c.isAlpha then
      let name := List.takeWhile Char.isAlpha (c :: r2)
      let r3 := List.dropWhile Char.isAlpha (c :: r2)
      if 32 < name.length then .err .MalformedControlWord r3
      else
        let pr := parseParam r3
        let r5 := eatSpace pr.2
        if name = ['b', 'i', 'n'] then
          match pr.1 with
          | some n =>
            if 0 < n then
              if r5.length < n.toNat then .err .TruncatedBinary r5
              else .tok (.binTok (r5.take n.toNat)) (r5.drop n.toNat)
            else .tok (.ctrlWord name pr.1) r5
          | none => .tok (.ctrlWord name pr.1) r5
        else .tok (.ctrlWord name pr.1) r5
    else if c.toNat = 39 then
      match r2 with
      | h1 :: h2 :: r3 =>
        match hexVal h1, hexVal h2 with
        | some a, some b => .tok (.textTok [Char.ofNat (a * 16 + b)]) r3
        | _, _ => .err .InvalidEncoding r2
      | _ => .err .InvalidEncoding r2
    else .tok (.ctrlSym c) r2

/-- Modelled from the spec: the tokenizer step of section 4.1: braces are
group delimiters, carriage returns and line feeds are ignored, a backslash
starts a control sequence, and other bytes accumulate into a Text token. -/
def scanToken : List Char → ScanResult
  | [] => .done
  | c :: r =>
    if c = '\x7b' then .tok .groupOpen r
    else if c = '\x7d' then .tok .groupClose r
    else if c = '\r' ∨ c = '\n' then scanToken r
    else if c = '\\' then scanControl r
    else .tok (.textTok (List.takeWhile isPlainText (c :: r)))
              (List.dropWhile isPlainText (c :: r))


/- ======================== Parser state ======================== -/

/-- Modelled from the spec: the mutable state of the formatting state
machine and document builder (sections 4.2, 4.3, 4.5): the group stack
(top first, the root scope last), the flat text buffer, the run list in
reverse document order (most recent first, for O(1) extension), the image
payload list, the recorded recoverable errors, the count of clamped
no-op group opens beyond max_depth (tolerant mode), the count of
processed top-level tokens, and the progress byte accumulator and
notification count. -/
structure PState where
  stack : List Scope
  text : List Char
  revRuns : List Run
  images : List (List Char)
  errors : List ErrKind
  clamped : Nat
  tokenCount : Nat
  bytesAcc : Nat
  progressEvents : Nat
deriving DecidableEq

/-- Modelled from the spec: the builder starts with an empty document and
one root scope holding the default style. -/
def initState : PState :=
  ⟨[⟨defaultStyle, true⟩], [], [], [], [], 0, 0, 0, 0⟩

/-- Modelled from the spec: the final result of one parse call: the text,
the runs in document order, the images, the recorded errors, the number of
progress notifications and the terminal outcome of section 7. -/
structure PResult where
  text : List Char
  runs : List Run
  images : List (List Char)
  errors : List ErrKind
  progressEvents : Nat
  outcome : Outcome
deriving DecidableEq

/-- Context of one parse call: the immutable options snapshot and the
cancellation check (consulted with the current top-level token count). -/
structure Ctx where
  opts : RtfParseOptions
  cancel : Nat → Bool

/-- Package the current state as a result with the given outcome. -/
def mkResult (st : PState) (o : Outcome) : PResult :=
  ⟨st.text, st.revRuns.reverse, st.images, st.errors, st.progressEvents, o⟩

/-- Increment the processed top-level token count. -/
def bumpTok (st : PState) : PState := { st with tokenCount := st.tokenCount + 1 }

/-- Modelled from the spec: enter_group pushes a copy of the current top
scope (style and active flag), section 4.2. -/
def pushScope (st : PState) : PState :=
  match st.stack with
  | t :: r => { st with stack := t :: t :: r }
  | [] => st

/-- Modelled from the spec: destination control words set the active flag
false on the current scope (section 4.2). -/
def deactivateTop (st : PState) : PState :=
  match st.stack with
  | t :: r => { st with stack := { t with active := false } :: r }
  | [] => st

/-- Record a recovered error (kind appended in chronological order). -/
def recordErr (st : PState) (k : ErrKind) : PState :=
  { st with errors := st.errors ++ [k] }

/-- Enter a clamped no-op scope (tolerant mode beyond max_depth). -/
def incClamped (st : PState) : PState := { st with clamped := st.clamped + 1 }

/-- Leave a clamped no-op scope. -/
def decClamped (st : PState) : PState := { st with clamped := st.clamped - 1 }

/-- Modelled from the spec: the fixed control-word mapping table of
section 4.2 acting on the top-of-stack style: b, i, ul, ulnone, strike,
super, sub, nosupersub, v, caps, scaps, f, fs, cf, cb; a parameter equal
to zero turns a flag off, an absent or nonzero parameter turns it on. -/
def applyToStyle (sty : Style) (name : List Char) (param : Option Int) : Style :=
  let flagOn : Bool := match param with | some 0 => false | _ => true
  if name = ['b'] then { sty with bold := flagOn }
  else if name = ['i'] then { sty with italic := flagOn }
  else if name = ['u', 'l'] then { sty with underline := flagOn }
  else if name = "ulnone".toList then { sty with underline := false }
  else if name = "strike".toList then { sty with strikethrough := flagOn }
  else if name = "super".toList then { sty with superscript := flagOn }
  else if name = "sub".toList then { sty with subscript := flagOn }
  else if name = "nosupersub".toList then
    { sty with superscript := false, subscript := false }
  else if name = ['v'] then { sty with hidden := flagOn }
  else if name = "caps".toList then { sty with allCaps := flagOn }
  else if name = "scaps".toList then { sty with smallCaps := flagOn }
  else if name = ['f'] then
    match param with | some p => { sty with fontIndex := p } | none => sty
  else if name = ['f', 's'] then
    match param with | some p => { sty with fontSize := p.toNat } | none => sty
  else if name = ['c', 'f'] then
    match param with | some p => { sty with fgColor := p } | none => sty
  else if name = ['c', 'b'] then
    match param with | some p => { sty with bgColor := p } | none => sty
  else sty

/-- Apply a control word to the style of the top scope. -/
def applyCtrlWord (st : PState) (name : List Char) (param : Option Int) : PState :=
  match st.stack with
  | t :: r => { st with stack := { t with style := applyToStyle t.style name param } :: r }
  | [] => st

/-- Modelled from the spec: destination group control words of section 4.2
(fonttbl, colortbl, stylesheet, pict, object, and the info group of
section 4.3) suppress literal text output in their scope. -/
def isDestWord (name : List Char) : Bool :=
  name = "fonttbl".toList || name = "colortbl".toList ||
  name = "stylesheet".toList || name = "pict".toList ||
  name = "object".toList || name = "info".toList

/-- Append a run of k fresh bytes at text offset tl with style sty, either
extending the most recent run when its style is identical or opening a new
run (section 4.3). -/
def addRun (rr : List Run) (tl k : Nat) (sty : Style) : List Run :=
  match rr with
  | r :: rs => if r.style = sty then { r with length := r.length + k } :: rs
               else ⟨tl, k, sty⟩ :: r :: rs
  | [] => [⟨tl, k, sty⟩]

/-- Modelled from the spec: emit_text of section 4.3: when the current
scope is active, append the bytes to the text buffer and extend the last
run or open a new one; suppressed or empty text leaves the state
unchanged. -/
def emitText (st : PState) (s : List Char) : PState :=
  match st.stack with
  | t :: _ =>
    if t.active ∧ s ≠ [] then
      { st with text := st.text ++ s,
                revRuns := addRun st.revRuns st.text.length s.length t.style }
    else st
  | [] => st

/-- Modelled from the spec: emit_binary routes raw binary payload to image
or object storage rather than the text buffer (section 4.3). -/
def emitBin (st : PState) (bs : List Char) : PState :=
  { st with images := st.images ++ [bs] }

/-- Modelled from the spec: the progress controller of section 4.5: after
every progress_interval consumed bytes a notification is counted; an
interval of zero disables progress reporting. -/
def noteBytes (opts : RtfParseOptions) (k : Nat) (st : PState) : PState :=
  if opts.progress_interval = 0 then { st with bytesAcc := st.bytesAcc + k }
  else
    let b := st.bytesAcc + k
    if opts.progress_interval ≤ b then
      { st with bytesAcc := b % opts.progress_interval,
                progressEvents := st.progressEvents + 1 }
    else { st with bytesAcc := b }

/-- Outcome of one parse loop iteration: either a terminal result or a
successor state with the unconsumed input. -/
inductive StepOut where
  | halt (r : PResult)
  | cont (st : PState) (rest : List Char)
deriving DecidableEq

/-- Modelled from the spec: end-of-input handling (sections 4.5 and 7):
with the group stack back at the root the parse succeeds (with recovered
errors when any were recorded); inside an open group strict mode fails
with UnterminatedDocument while tolerant mode records it and succeeds. -/
def finishResult (ctx : Ctx) (st : PState) : PResult :=
  if st.stack.length ≤ 1 ∧ st.clamped = 0 then
    if st.errors = [] then mkResult st .Success
    else mkResult st .SuccessWithRecoveredErrors
  else if ctx.opts.strict_mode then mkResult st (.Failed .UnterminatedDocument)
  else mkResult (recordErr st .UnterminatedDocument) .SuccessWithRecoveredErrors

/-- Modelled from the spec: dispatch of one token (sections 4.2 and 4.3):
group open pushes a scope, or fails with DepthExceeded in strict mode and
clamps to a no-op scope in tolerant mode once max_depth would be exceeded;
group close pops, or fails with UnbalancedGroup in strict mode and is
absorbed in tolerant mode when the root would be popped; control words
update the style or open a destination; escaped braces and backslash emit
literal text; text and binary tokens are routed to the builder. -/
def handleTok (ctx : Ctx) (st : PState) (t : Token) (rest : List Char) : StepOut :=
  match t with
  | .groupOpen =>
    if 0 < st.clamped then .cont (recordErr (incClamped (bumpTok st)) .DepthExceeded) rest
    else if st.stack.length - 1 < ctx.opts.max_depth then .cont (pushScope (bumpTok st)) rest
    else if ctx.opts.strict_mode then .halt (mkResult (bumpTok st) (.Failed .DepthExceeded))
    else .cont (recordErr (incClamped (bumpTok st)) .DepthExceeded) rest
  | .groupClose =>
    if 0 < st.clamped then .cont (decClamped (bumpTok st)) rest
    else if 2 ≤ st.stack.length then .cont ({ bumpTok st with stack := st.stack.tail }) rest
    else if ctx.opts.strict_mode then .halt (mkResult (bumpTok st) (.Failed .UnbalancedGroup))
    else .cont (recordErr (bumpTok st) .UnbalancedGroup) rest
  | .ctrlWord name param =>
    if isDestWord name then .cont (deactivateTop (bumpTok st)) rest
    else .cont (applyCtrlWord (bumpTok st) name param) rest
  | .ctrlSym c =>
    if c = '*' then .cont (deactivateTop (bumpTok st)) rest
    else if c = '\\' ∨ c = '\x7b' ∨ c = '\x7d' then .cont (emitText (bumpTok st) [c]) rest
    else .cont (bumpTok st) rest
  | .textTok s => .cont (emitText (bumpTok st) s) rest
  | .binTok bs => .cont (emitBin (bumpTok st) bs) rest

/-- Modelled from the spec: one iteration of the parse loop (section 4.5):
the cancellation check is consulted before each top-level token; then one
token is scanned; a tokenizer error aborts in strict mode and is recovered
in tolerant mode by recording it and treating the remainder as literal
text. -/
def step0 (ctx : Ctx) (st : PState) (input : List Char) : StepOut :=
  if ctx.cancel st.tokenCount then .halt (mkResult st .Canceled)
  else
    match scanToken input with
    | .done => .halt (finishResult ctx st)
    | .err k rem =>
      if ctx.opts.strict_mode then .halt (mkResult st (.Failed k))
      else .cont (emitText (recordErr (bumpTok st) k) rem) []
    | .tok t rest => handleTok ctx st t rest

/-- One parse loop iteration followed by byte accounting for the progress
controller. -/
def stepP (ctx : Ctx) (st : PState) (input : List Char) : StepOut :=
  match step0 ctx st input with
  | .halt r => .halt r
  | .cont st2 rest => .cont (noteBytes ctx.opts (input.length - rest.length) st2) rest

/-- Fuel-indexed parse loop; the fuel strictly exceeds the input length at
the top-level call, so the zero-fuel case is never reached there. -/
def runSteps : Nat → Ctx → PState → List Char → PResult
  | 0, _, st, _ => mkResult st (.Failed .UnterminatedDocument)
  | Nat.succ n, ctx, st, input =>
    match stepP ctx st input with
    | .halt r => r
    | .cont st2 rest => runSteps n ctx st2 rest

/-- Modelled from the spec: one full parse call over an in-memory byte
buffer with an options snapshot and a cancellation check. -/
def parseRTF (opts : RtfParseOptions) (cancel : Nat → Bool) (input : List Char) : PResult :=
  runSteps (input.length + 1) ⟨opts, cancel⟩ initState input

/-- The always-false cancellation check (no cancellation requested). -/
def cancelNone : Nat → Bool := fun _ => false

/- ======================== Document access API ======================== -/

/-- Modelled from the spec: the opaque rtf_document handle of
src/src/c_api.h (implementation not in src/): the owned text buffer, the
ordered run list and the image payload list of the completed parse. -/
structure rtf_document where
  text : List Char
  runs : List Run
  images : List (List Char)
deriving DecidableEq

/-- Modelled from the spec: rtf_parse of src/src/c_api.h lines 90-98
(implementation not in src/): parse with the default options and no
cancellation; a null document (none) is returned when parsing fails. -/
def rtf_parse (input : List Char) : Option rtf_document :=
  let r := parseRTF RTF_DEFAULT_OPTIONS cancelNone input
  if r.outcome = .Success ∨ r.outcome = .SuccessWithRecoveredErrors then
    some ⟨r.text, r.runs, r.images⟩
  else none

/-- Modelled from the spec: rtf_get_text_length of src/src/c_api.h lines
134-139: text length in bytes. -/
def rtf_get_text_length (doc : rtf_document) : Nat := doc.text.length

/-- Modelled from the spec: rtf_get_run_count of src/src/c_api.h lines
141-146. -/
def rtf_get_run_count (doc : rtf_document) : Nat := doc.runs.length

/-- Modelled from the spec: rtf_get_run of src/src/c_api.h lines 148-156:
returns the run at the index, or NULL (none) when the index is not below
rtf_get_run_count. -/
def rtf_get_run (doc : rtf_document) (i : Nat) : Option Run := doc.runs[i]?

/-- Modelled from the spec: rtf_get_image_count of src/src/c_api.h lines
158-163. -/
def rtf_get_image_count (doc : rtf_document) : Nat := doc.images.length

/-- Modelled from the spec: rtf_get_image of src/src/c_api.h lines 165-173:
returns the image at the index, or NULL (none) when the index is not below
rtf_get_image_count. -/
def rtf_get_image (doc : rtf_document) (i : Nat) : Option (List Char) := doc.images[i]?

/- ======================== Partition predicates ======================== -/

/-- Runs starting at offset off partition the half-open byte range from off
to n contiguously, in order, each nonempty. -/
def runsCoverB : List Run → Nat → Nat → Bool
  | [], off, n => decide (off = n)
  | r :: rs, off, n =>
    decide (r.start = off) && decide (0 < r.length) && runsCoverB rs (off + r.length) n

/-- Reversed-order variant used for the builder state: the head run is the
most recent and ends exactly at the current text length n. -/
def revCoverB : List Run → Nat → Bool
  | [], n => decide (n = 0)
  | r :: rs, n => decide (n = r.start + r.length) && decide (0 < r.length) && revCoverB rs r.start

/-- Sum of the lengths of the runs. -/
def sumLen (rs : List Run) : Nat := rs.foldr (fun r a => r.length + a) 0

/-- The trivial round-trip input of the spec (section 8), with the brace
bytes written as hexadecimal escapes. -/
def rtfHelloInput : List Char := "\x7b\\rtf1\\ansi Hello \\b bold\\b0 world!\x7d".toList

/-- The bold style: the default style with the bold flag set. -/
def boldStyle : Style := { defaultStyle with bold := true }

/-- Modelled from the spec: rtf2_parser_parse_memory (declared at
src/examples/c_bindings/zigrtf_improved.h lines 374-378, implementation
not in src/) parses with the default options when none are supplied. -/
def rtf2_parser_parse_memory (input : List Char) : PResult :=
  parseRTF RTF_DEFAULT_OPTIONS cancelNone input

/-- States visited by the parse loop, in order, starting with the given
state (terminal results are not states). -/
def runTrace : Nat → Ctx → PState → List Char → List PState
  | 0, _, st, _ => [st]
  | Nat.succ n, ctx, st, input =>
    st :: (match stepP ctx st input with
           | .halt _ => []
           | .cont st2 rest => runTrace n ctx st2 rest)

/-- All intermediate states of one full parse call. -/
def parseTrace (opts : RtfParseOptions) (cancel : Nat → Bool) (input : List Char) :
    List PState :=
  runTrace (input.length + 1) ⟨opts, cancel⟩ initState input

/-- An input fragment beginning with a bin control word: the backslash,
the word name, a digit parameter, the delimiter space, and the remaining
bytes. -/
def binInput (ds tail : List Char) : List Char :=
  '\\' :: 'b' :: 'i' :: 'n' :: (ds ++ ' ' :: tail)

/-- Whether the current (top) scope emits text. -/
def headActive (st : PState) : Bool :=
  match st.stack with
  | t :: _ => t.active
  | [] => false

/-- Token-level group-brace safety of the remaining input at current
nesting depth d: every GroupClose token arrives at positive depth (the
root is never popped) and every GroupOpen token arrives below maxd (the
depth bound is never exceeded). -/
def braceSafeB : Nat → Nat → Nat → List Char → Bool
  | 0, _, _, _ => true
  | Nat.succ n, d, maxd, input =>
    match scanToken input with
    | .done => true
    | .err _ _ => true
    | .tok .groupOpen rest => decide (d < maxd) && braceSafeB n (d + 1) maxd rest
    | .tok .groupClose rest => decide (0 < d) && braceSafeB n (d - 1) maxd rest
    | .tok _ rest => braceSafeB n d maxd rest

/-- Number of GroupOpen tokens scanned from the input. -/
def openTokCount : Nat → List Char → Nat
  | 0, _ => 0
  | Nat.succ n, input =>
    match scanToken input with
    | .tok .groupOpen rest => openTokCount n rest + 1
    | .tok _ rest => openTokCount n rest
    | _ => 0

/-- Number of GroupClose tokens scanned from the input. -/
def closeTokCount : Nat → List Char → Nat
  | 0, _ => 0
  | Nat.succ n, input =>
    match scanToken input with
    | .tok .groupClose rest => closeTokCount n rest + 1
    | .tok _ rest => closeTokCount n rest
    | _ => 0

/-- The counterexample input: a close brace followed by an open brace. -/
def unbalancedInput : List Char := "\x7d\x7b".toList

/- ======================== Tokenizer lemmas ======================== -/

theorem dropWhile_len_le (p : Char → Bool) (l : List Char) :
    (List.dropWhile p l).length ≤ l.length := by
  induction l with
  | nil => simp [List.dropWhile]
  | cons c r ih =>
    by_cases h : p c
    · simp [List.dropWhile, h]; omega
    · simp [List.dropWhile, h]

theorem parseParam_len_le (r : List Char) : (parseParam r).2.length ≤ r.length := by
  unfold parseParam
  split <;> dsimp only <;> split
  · simp
  · calc (List.dropWhile Char.isDigit r.tail).length ≤ r.tail.length :=
          dropWhile_len_le _ _
      _ ≤ r.length := by cases r <;> simp
  · simp
  · exact dropWhile_len_le _ _

theorem eatSpace_len_le (r : List Char) : (eatSpace r).length ≤ r.length := by
  unfold eatSpace
  split
  · cases r <;> simp
  · simp

theorem scanControl_tok_lt (r : List Char) (t : Token) (rest : List Char)
    (h : scanControl r = .tok t rest) : rest.length < r.length := by
  unfold scanControl at h
  match r with
  | [] => simp at h
  | c :: r2 =>
    simp only [] at h
    by_cases ha : c.isAlpha
    · rw [if_pos ha] at h
      have hdrop : (List.dropWhile Char.isAlpha (c :: r2)).length ≤ r2.length := by
        simp only [List.dropWhile, ha]
        exact dropWhile_len_le _ _
      have hr5 : (eatSpace (parseParam (List.dropWhile Char.isAlpha (c :: r2))).2).length
          ≤ r2.length := by
        calc (eatSpace (parseParam (List.dropWhile Char.isAlpha (c :: r2))).2).length
            ≤ (parseParam (List.dropWhile Char.isAlpha (c :: r2))).2.length :=
              eatSpace_len_le _
          _ ≤ (List.dropWhile Char.isAlpha (c :: r2)).length := parseParam_len_le _
          _ ≤ r2.length := hdrop
      split at h
      · exact absurd h (by simp)
      · split at h
        · split at h
          · split at h
            · split at h
              · exact absurd h (by simp)
              · cases h
                simp only [List.length_drop]
                have := hr5
                simp only [List.length_cons]
                omega
            · cases h
              simp only [List.length_cons]
              omega
          · cases h
            simp only [List.length_cons]
            omega
        · cases h
          simp only [List.length_cons]
          omega
    · rw [if_neg ha] at h
      split at h
      · match r2 with
        | [] => simp at h
        | [x] => simp at h
        | h1 :: h2 :: r3 =>
          simp only [] at h
          split at h
          · cases h; simp; omega
          · exact absurd h (by simp)
      · cases h
        simp

theorem scanToken_tok_lt (input : List Char) (t : Token) (rest : List Char)
    (h : scanToken input = .tok t rest) : rest.length < input.length := by
  induction input with
  | nil => simp [scanToken] at h
  | cons c r ih =>
    unfold scanToken at h
    split at h
    · cases h; simp
    · split at h
      · cases h; simp
      · split at h
        · have := ih h
          simp only [List.length_cons]
          omega
        · split at h
          · have := scanControl_tok_lt r t rest h
            simp only [List.length_cons]
            omega
          · cases h
            have hp : isPlainText c = true := by
              unfold isPlainText
              simp_all
            simp only [List.dropWhile, hp, List.length_cons]
            have := dropWhile_len_le isPlainText r
            omega

theorem scanControl_err_kind (r : List Char) (k : ErrKind) (rem : List Char)
    (h : scanControl r = .err k rem) :
    k = .MalformedControlWord ∨ k = .TruncatedBinary ∨ k = .InvalidEncoding := by
  unfold scanControl at h
  match r with
  | [] => cases h; left; rfl
  | c :: r2 =>
    simp only [] at h
    split at h
    · split at h
      · cases h; left; rfl
      · split at h
        · split at h
          · split at h
            · split at h
              · cases h; right; left; rfl
              · simp at h
            · simp at h
          · simp at h
        · simp at h
    · split at h
      · match r2 with
        | [] => cases h; right; right; rfl
        | [x] => cases h; right; right; rfl
        | h1 :: h2 :: r3 =>
          simp only [] at h
          split at h
          · simp at h
          · cases h; right; right; rfl
      · simp at h

theorem scanToken_err_kind (input : List Char) (k : ErrKind) (rem : List Char)
    (h : scanToken input = .err k rem) :
    k = .MalformedControlWord ∨ k = .TruncatedBinary ∨ k = .InvalidEncoding := by
  induction input with
  | nil => simp [scanToken] at h
  | cons c r ih =>
    unfold scanToken at h
    split at h
    · simp at h
    · split at h
      · simp at h
      · split at h
        · exact ih h
        · split at h
          · exact scanControl_err_kind r k rem h
          · simp at h

theorem scanToken_err_ne_nil (input : List Char) (k : ErrKind) (rem : List Char)
    (h : scanToken input = .err k rem) : input ≠ [] := by
  intro hn
  subst hn
  simp [scanToken] at h

/- ======================== State helper lemmas ======================== -/

@[simp] theorem bumpTok_text (st : PState) : (bumpTok st).text = st.text := rfl
@[simp] theorem bumpTok_stack (st : PState) : (bumpTok st).stack = st.stack := rfl
@[simp] theorem bumpTok_errors (st : PState) : (bumpTok st).errors = st.errors := rfl
@[simp] theorem bumpTok_clamped (st : PState) : (bumpTok st).clamped = st.clamped := rfl
@[simp] theorem bumpTok_revRuns (st : PState) : (bumpTok st).revRuns = st.revRuns := rfl
@[simp] theorem bumpTok_progress (st : PState) : (bumpTok st).progressEvents = st.progressEvents := rfl

@[simp] theorem recordErr_text (st : PState) (k : ErrKind) : (recordErr st k).text = st.text := rfl
@[simp] theorem recordErr_stack (st : PState) (k : ErrKind) : (recordErr st k).stack = st.stack := rfl
@[simp] theorem recordErr_errors (st : PState) (k : ErrKind) :
    (recordErr st k).errors = st.errors ++ [k] := rfl
@[simp] theorem recordErr_clamped (st : PState) (k : ErrKind) : (recordErr st k).clamped = st.clamped := rfl
@[simp] theorem recordErr_revRuns (st : PState) (k : ErrKind) : (recordErr st k).revRuns = st.revRuns := rfl
@[simp] theorem recordErr_progress (st : PState) (k : ErrKind) :
    (recordErr st k).progressEvents = st.progressEvents := rfl

@[simp] theorem incClamped_text (st : PState) : (incClamped st).text = st.text := rfl
@[simp] theorem incClamped_stack (st : PState) : (incClamped st).stack = st.stack := rfl
@[simp] theorem incClamped_errors (st : PState) : (incClamped st).errors = st.errors := rfl
@[simp] theorem incClamped_revRuns (st : PState) : (incClamped st).revRuns = st.revRuns := rfl
@[simp] theorem incClamped_progress (st : PState) : (incClamped st).progressEvents = st.progressEvents := rfl

@[simp] theorem decClamped_text (st : PState) : (decClamped st).text = st.text := rfl
@[simp] theorem decClamped_stack (st : PState) : (decClamped st).stack = st.stack := rfl
@[simp] theorem decClamped_errors (st : PState) : (decClamped st).errors = st.errors := rfl
@[simp] theorem decClamped_revRuns (st : PState) : (decClamped st).revRuns = st.revRuns := rfl
@[simp] theorem decClamped_progress (st : PState) : (decClamped st).progressEvents = st.progressEvents := rfl

@[simp] theorem emitBin_text (st : PState) (bs : List Char) : (emitBin st bs).text = st.text := rfl
@[simp] theorem emitBin_stack (st : PState) (bs : List Char) : (emitBin st bs).stack = st.stack := rfl
@[simp] theorem emitBin_errors (st : PState) (bs : List Char) : (emitBin st bs).errors = st.errors := rfl
@[simp] theorem emitBin_clamped (st : PState) (bs : List Char) : (emitBin st bs).clamped = st.clamped := rfl
@[simp] theorem emitBin_revRuns (st : PState) (bs : List Char) : (emitBin st bs).revRuns = st.revRuns := rfl
@[simp] theorem emitBin_progress (st : PState) (bs : List Char) :
    (emitBin st bs).progressEvents = st.progressEvents := rfl

theorem pushScope_text (st : PState) : (pushScope st).text = st.text := by
  unfold pushScope; split <;> rfl
theorem pushScope_errors (st : PState) : (pushScope st).errors = st.errors := by
  unfold pushScope; split <;> rfl
theorem pushScope_clamped (st : PState) : (pushScope st).clamped = st.clamped := by
  unfold pushScope; split <;> rfl
theorem pushScope_revRuns (st : PState) : (pushScope st).revRuns = st.revRuns := by
  unfold pushScope; split <;> rfl
theorem pushScope_progress (st : PState) : (pushScope st).progressEvents = st.progressEvents := by
  unfold pushScope; split <;> rfl

theorem deactivateTop_text (st : PState) : (deactivateTop st).text = st.text := by
  unfold deactivateTop; split <;> rfl
theorem deactivateTop_errors (st : PState) : (deactivateTop st).errors = st.errors := by
  unfold deactivateTop; split <;> rfl
theorem deactivateTop_clamped (st : PState) : (deactivateTop st).clamped = st.clamped := by
  unfold deactivateTop; split <;> rfl
theorem deactivateTop_revRuns (st : PState) : (deactivateTop st).revRuns = st.revRuns := by
  unfold deactivateTop; split <;> rfl
theorem deactivateTop_progress (st : PState) : (deactivateTop st).progressEvents = st.progressEvents := by
  unfold deactivateTop; split <;> rfl
theorem deactivateTop_stack_len (st : PState) : (deactivateTop st).stack.length = st.stack.length := by
  unfold deactivateTop
  split <;> simp_all

theorem applyCtrlWord_text (st : PState) (name : List Char) (p : Option Int) :
    (applyCtrlWord st name p).text = st.text := by
  unfold applyCtrlWord; split <;> rfl
theorem applyCtrlWord_errors (st : PState) (name : List Char) (p : Option Int) :
    (applyCtrlWord st name p).errors = st.errors := by
  unfold applyCtrlWord; split <;> rfl
theorem applyCtrlWord_clamped (st : PState) (name : List Char) (p : Option Int) :
    (applyCtrlWord st name p).clamped = st.clamped := by
  unfold applyCtrlWord; split <;> rfl
theorem applyCtrlWord_revRuns (st : PState) (name : List Char) (p : Option Int) :
    (applyCtrlWord st name p).revRuns = st.revRuns := by
  unfold applyCtrlWord; split <;> rfl
theorem applyCtrlWord_progress (st : PState) (name : List Char) (p : Option Int) :
    (applyCtrlWord st name p).progressEvents = st.progressEvents := by
  unfold applyCtrlWord; split <;> rfl
theorem applyCtrlWord_stack_len (st : PState) (name : List Char) (p : Option Int) :
    (applyCtrlWord st name p).stack.length = st.stack.length := by
  unfold applyCtrlWord
  split <;> simp_all

theorem emitText_errors (st : PState) (s : List Char) : (emitText st s).errors = st.errors := by
  unfold emitText; split
  · split <;> rfl
  · rfl
theorem emitText_stack (st : PState) (s : List Char) : (emitText st s).stack = st.stack := by
  unfold emitText; split
  · split <;> rfl
  · rfl
theorem emitText_clamped (st : PState) (s : List Char) : (emitText st s).clamped = st.clamped := by
  unfold emitText; split
  · split <;> rfl
  · rfl
theorem emitText_progress (st : PState) (s : List Char) :
    (emitText st s).progressEvents = st.progressEvents := by
  unfold emitText; split
  · split <;> rfl
  · rfl
theorem emitText_text_mono (st : PState) (s : List Char) :
    st.text.length ≤ (emitText st s).text.length := by
  unfold emitText; split
  · split
    · simp
    · simp
  · simp

theorem noteBytes_text (o : RtfParseOptions) (k : Nat) (st : PState) :
    (noteBytes o k st).text = st.text := by
  unfold noteBytes; split
  · rfl
  · dsimp only; split <;> rfl
theorem noteBytes_stack (o : RtfParseOptions) (k : Nat) (st : PState) :
    (noteBytes o k st).stack = st.stack := by
  unfold noteBytes; split
  · rfl
  · dsimp only; split <;> rfl
theorem noteBytes_errors (o : RtfParseOptions) (k : Nat) (st : PState) :
    (noteBytes o k st).errors = st.errors := by
  unfold noteBytes; split
  · rfl
  · dsimp only; split <;> rfl
theorem noteBytes_clamped (o : RtfParseOptions) (k : Nat) (st : PState) :
    (noteBytes o k st).clamped = st.clamped := by
  unfold noteBytes; split
  · rfl
  · dsimp only; split <;> rfl
theorem noteBytes_revRuns (o : RtfParseOptions) (k : Nat) (st : PState) :
    (noteBytes o k st).revRuns = st.revRuns := by
  unfold noteBytes; split
  · rfl
  · dsimp only; split <;> rfl
theorem noteBytes_progress_zero (o : RtfParseOptions) (k : Nat) (st : PState)
    (h : o.progress_interval = 0) : (noteBytes o k st).progressEvents = st.progressEvents := by
  unfold noteBytes
  rw [if_pos h]

@[simp] theorem mkResult_text (st : PState) (o : Outcome) : (mkResult st o).text = st.text := rfl
@[simp] theorem mkResult_errors (st : PState) (o : Outcome) : (mkResult st o).errors = st.errors := rfl
@[simp] theorem mkResult_outcome (st : PState) (o : Outcome) : (mkResult st o).outcome = o := rfl
@[simp] theorem mkResult_runs (st : PState) (o : Outcome) :
    (mkResult st o).runs = st.revRuns.reverse := rfl
@[simp] theorem mkResult_progress (st : PState) (o : Outcome) :
    (mkResult st o).progressEvents = st.progressEvents := rfl

/- ======================== Step lemmas ======================== -/

theorem handleTok_halt_text (ctx : Ctx) (st : PState) (t : Token) (rest : List Char)
    (r : PResult) (h : handleTok ctx st t rest = .halt r) : r.text = st.text := by
  unfold handleTok at h
  repeat' split at h
  all_goals cases h
  all_goals rfl

theorem handleTok_cont_text_mono (ctx : Ctx) (st : PState) (t : Token) (rest : List Char)
    (st2 : PState) (rest2 : List Char) (h : handleTok ctx st t rest = .cont st2 rest2) :
    st.text.length ≤ st2.text.length := by
  unfold handleTok at h
  repeat' split at h
  all_goals cases h
  all_goals (try (simp only [recordErr_text, incClamped_text, decClamped_text, bumpTok_text,
    pushScope_text, deactivateTop_text, applyCtrlWord_text, emitBin_text]))
  all_goals (first
    | exact Nat.le_refl _
    | exact emitText_text_mono (bumpTok st) _)

theorem handleTok_cont_rest (ctx : Ctx) (st : PState) (t : Token) (rest : List Char)
    (st2 : PState) (rest2 : List Char) (h : handleTok ctx st t rest = .cont st2 rest2) :
    rest2 = rest := by
  unfold handleTok at h
  repeat' split at h
  all_goals cases h
  all_goals rfl

theorem finishResult_text (ctx : Ctx) (st : PState) : (finishResult ctx st).text = st.text := by
  unfold finishResult
  repeat' split
  all_goals simp

theorem step0_halt_text (ctx : Ctx) (st : PState) (input : List Char) (r : PResult)
    (h : step0 ctx st input = .halt r) : r.text = st.text := by
  unfold step0 at h
  split at h
  · cases h; rfl
  · split at h
    · cases h; exact finishResult_text ctx st
    · split at h
      · cases h; rfl
      · cases h
    · exact handleTok_halt_text ctx st _ _ r h

theorem step0_cont_text_mono (ctx : Ctx) (st : PState) (input : List Char)
    (st2 : PState) (rest2 : List Char) (h : step0 ctx st input = .cont st2 rest2) :
    st.text.length ≤ st2.text.length := by
  unfold step0 at h
  split at h
  · cases h
  · split at h
    · cases h
    · split at h
      · cases h
      · cases h
        exact emitText_text_mono (recordErr (bumpTok st) _) _
    · exact handleTok_cont_text_mono ctx st _ _ st2 rest2 h

theorem step0_cont_lt (ctx : Ctx) (st : PState) (input : List Char)
    (st2 : PState) (rest2 : List Char) (h : step0 ctx st input = .cont st2 rest2) :
    rest2.length < input.length := by
  unfold step0 at h
  split at h
  · cases h
  · split at h
    · cases h
    · split at h
      · cases h
      · cases h
        have := scanToken_err_ne_nil input _ _ (by assumption)
        cases input with
        | nil => exact absurd rfl this
        | cons c r => simp
    · have hr := handleTok_cont_rest ctx st _ _ st2 rest2 h
      subst hr
      exact scanToken_tok_lt input _ _ (by assumption)

theorem stepP_halt_text (ctx : Ctx) (st : PState) (input : List Char) (r : PResult)
    (h : stepP ctx st input = .halt r) : r.text = st.text := by
  unfold stepP at h
  split at h
  · cases h; exact step0_halt_text ctx st input _ (by assumption)
  · cases h

theorem stepP_cont_text_mono (ctx : Ctx) (st : PState) (input : List Char)
    (st2 : PState) (rest2 : List Char) (h : stepP ctx st input = .cont st2 rest2) :
    st.text.length ≤ st2.text.length := by
  unfold stepP at h
  split at h
  · cases h
  · cases h
    rw [noteBytes_text]
    exact step0_cont_text_mono ctx st input _ _ (by assumption)

theorem stepP_cont_lt (ctx : Ctx) (st : PState) (input : List Char)
    (st2 : PState) (rest2 : List Char) (h : stepP ctx st input = .cont st2 rest2) :
    rest2.length < input.length := by
  unfold stepP at h
  split at h
  · cases h
  · cases h
    exact step0_cont_lt ctx st input _ _ (by assumption)

/-- The parse loop never shrinks the text buffer: the final result text is
at least as long as the text of the state it starts from. -/
theorem runSteps_text_mono (n : Nat) : ∀ (ctx : Ctx) (st : PState) (input : List Char),
    st.text.length ≤ (runSteps n ctx st input).text.length := by
  induction n with
  | zero => intro ctx st input; simp [runSteps]
  | succ n ih =>
    intro ctx st input
    unfold runSteps
    split
    · rw [stepP_halt_text ctx st input _ (by assumption)]
    · exact le_trans (stepP_cont_text_mono ctx st input _ _ (by assumption)) (ih _ _ _)

theorem noteBytes_congr (o o' : RtfParseOptions) (k : Nat) (st : PState)
    (h : o'.progress_interval = o.progress_interval) : noteBytes o' k st = noteBytes o k st := by
  unfold noteBytes
  rw [h]

theorem handleTok_tolerant (ctx ctx' : Ctx)
    (hmd : ctx'.opts.max_depth = ctx.opts.max_depth)
    (hsm : ctx'.opts.strict_mode = false)
    (st : PState) (t : Token) (rest : List Char) (st2 : PState) (rest2 : List Char)
    (h : handleTok ctx st t rest = .cont st2 rest2) :
    handleTok ctx' st t rest = .cont st2 rest2 := by
  unfold handleTok at h ⊢
  cases t
  all_goals simp only [hmd, hsm] at h ⊢
  all_goals (repeat' split at h)
  all_goals (try (cases h))
  all_goals (repeat' split)
  all_goals (first | rfl | omega | simp_all)

theorem step0_tolerant (ctx ctx' : Ctx)
    (hmd : ctx'.opts.max_depth = ctx.opts.max_depth)
    (hsm : ctx'.opts.strict_mode = false)
    (hcan : ctx'.cancel = ctx.cancel)
    (st : PState) (input : List Char) (st2 : PState) (rest2 : List Char)
    (h : step0 ctx st input = .cont st2 rest2) :
    step0 ctx' st input = .cont st2 rest2 := by
  unfold step0 at h ⊢
  rw [hcan]
  by_cases hc : ctx.cancel st.tokenCount = true
  · rw [if_pos hc] at h
    cases h
  · rw [if_neg hc] at h ⊢
    generalize hscan : scanToken input = sr at h ⊢
    cases sr with
    | done =>
      dsimp only at h
      cases h
    | tok t rest =>
      dsimp only at h ⊢
      exact handleTok_tolerant ctx ctx' hmd hsm st _ _ st2 rest2 h
    | err k rem =>
      dsimp only at h ⊢
      split at h
      · cases h
      · cases h
        rw [hsm]
        simp

theorem stepP_tolerant (ctx ctx' : Ctx)
    (hmd : ctx'.opts.max_depth = ctx.opts.max_depth)
    (hsm : ctx'.opts.strict_mode = false)
    (hpi : ctx'.opts.progress_interval = ctx.opts.progress_interval)
    (hcan : ctx'.cancel = ctx.cancel)
    (st : PState) (input : List Char) (st2 : PState) (rest2 : List Char)
    (h : stepP ctx st input = .cont st2 rest2) :
    stepP ctx' st input = .cont st2 rest2 := by
  unfold stepP at h ⊢
  split at h
  · cases h
  · cases h
    rw [step0_tolerant ctx ctx' hmd hsm hcan st input _ _ (by assumption)]
    dsimp only
    rw [noteBytes_congr ctx.opts ctx'.opts _ _ hpi]

theorem runSteps_tolerant_ge (n : Nat) : ∀ (ctx ctx' : Ctx) (st : PState) (input : List Char),
    ctx'.opts.max_depth = ctx.opts.max_depth →
    ctx'.opts.strict_mode = false →
    ctx'.opts.progress_interval = ctx.opts.progress_interval →
    ctx'.cancel = ctx.cancel →
    (runSteps n ctx st input).text.length ≤ (runSteps n ctx' st input).text.length := by
  induction n with
  | zero => intro ctx ctx' st input _ _ _ _; simp [runSteps]
  | succ n ih =>
    intro ctx ctx' st input hmd hsm hpi hcan
    cases hs : stepP ctx st input with
    | halt r =>
      have e1 : runSteps (n + 1) ctx st input = r := by
        unfold runSteps
        rw [hs]
      rw [e1, stepP_halt_text ctx st input r hs]
      exact runSteps_text_mono (n + 1) ctx' st input
    | cont st2 rest =>
      have hs' := stepP_tolerant ctx ctx' hmd hsm hpi hcan st input st2 rest hs
      have e1 : runSteps (n + 1) ctx st input = runSteps n ctx st2 rest := by
        conv_lhs => unfold runSteps
        rw [hs]
      have e2 : runSteps (n + 1) ctx' st input = runSteps n ctx' st2 rest := by
        conv_lhs => unfold runSteps
        rw [hs']
      clear hs hs'
      rw [e1, e2]
      exact ih ctx ctx' st2 rest hmd hsm hpi hcan

theorem runSteps_succ_cont (n : Nat) (ctx : Ctx) (st : PState) (input : List Char)
    (st2 : PState) (rest : List Char) (hs : stepP ctx st input = .cont st2 rest) :
    runSteps (n + 1) ctx st input = runSteps n ctx st2 rest := by
  conv_lhs => unfold runSteps
  rw [hs]

theorem runSteps_succ_halt (n : Nat) (ctx : Ctx) (st : PState) (input : List Char)
    (r : PResult) (hs : stepP ctx st input = .halt r) :
    runSteps (n + 1) ctx st input = r := by
  conv_lhs => unfold runSteps
  rw [hs]

/-- Claim C4: for every input (and any shared base configuration and
cancellation check), the text produced by parsing in tolerant mode is at
least as long, in character count, as the text accumulated by the strict
parse of the same input up to the point of its first abort: the result of
parseRTF carries the text built so far even when strict mode aborts, and
tolerant mode never produces less of it. -/
theorem tolerant_superset (opts : RtfParseOptions) (cancel : Nat → Bool) (input : List Char) :
    (parseRTF { opts with strict_mode := true } cancel input).text.length ≤
    (parseRTF { opts with strict_mode := false } cancel input).text.length := by
  unfold parseRTF
  exact runSteps_tolerant_ge (input.length + 1)
    ⟨{ opts with strict_mode := true }, cancel⟩
    ⟨{ opts with strict_mode := false }, cancel⟩ initState input rfl rfl rfl rfl

/- ======================== Partition invariant ======================== -/

theorem revCoverB_addRun (rr : List Run) (tl k : Nat) (sty : Style)
    (h : revCoverB rr tl = true) (hk : 0 < k) :
    revCoverB (addRun rr tl k sty) (tl + k) = true := by
  unfold addRun
  cases rr with
  | nil =>
    simp only [revCoverB, decide_eq_true_eq] at h
    simp only [revCoverB, Bool.and_eq_true, decide_eq_true_eq]
    exact ⟨⟨by trivial, hk⟩, h⟩
  | cons r rs =>
    simp only [revCoverB, Bool.and_eq_true, decide_eq_true_eq] at h
    split
    · rename_i r2 rs2 heq
      injection heq with e1 e2
      subst e1
      subst e2
      split
      · simp only [revCoverB, Bool.and_eq_true, decide_eq_true_eq]
        exact ⟨⟨by omega, by omega⟩, h.2⟩
      · simp only [revCoverB, Bool.and_eq_true, decide_eq_true_eq]
        exact ⟨⟨by trivial, hk⟩, h⟩
    · rename_i heq
      simp at heq

theorem emitText_cover (st : PState) (s : List Char)
    (h : revCoverB st.revRuns st.text.length = true) :
    revCoverB (emitText st s).revRuns (emitText st s).text.length = true := by
  unfold emitText
  cases hst : st.stack with
  | nil => exact h
  | cons sc tl0 =>
    dsimp only
    by_cases hcond : sc.active = true ∧ s ≠ []
    · rw [if_pos hcond]
      simp only [List.length_append]
      exact revCoverB_addRun st.revRuns st.text.length s.length sc.style h
        (List.length_pos.mpr hcond.2)
    · rw [if_neg hcond]
      exact h

theorem handleTok_cont_cover (ctx : Ctx) (st : PState) (t : Token) (rest : List Char)
    (st2 : PState) (rest2 : List Char) (h : handleTok ctx st t rest = .cont st2 rest2)
    (hc : revCoverB st.revRuns st.text.length = true) :
    revCoverB st2.revRuns st2.text.length = true := by
  unfold handleTok at h
  repeat' split at h
  all_goals cases h
  all_goals (try (simp only [recordErr_revRuns, incClamped_revRuns, decClamped_revRuns,
    bumpTok_revRuns, pushScope_revRuns, deactivateTop_revRuns, applyCtrlWord_revRuns,
    emitBin_revRuns, recordErr_text, incClamped_text, decClamped_text, bumpTok_text,
    pushScope_text, deactivateTop_text, applyCtrlWord_text, emitBin_text]))
  all_goals (first | exact hc | exact emitText_cover (bumpTok st) _ hc)

theorem step0_cont_cover (ctx : Ctx) (st : PState) (input : List Char)
    (st2 : PState) (rest2 : List Char) (h : step0 ctx st input = .cont st2 rest2)
    (hc : revCoverB st.revRuns st.text.length = true) :
    revCoverB st2.revRuns st2.text.length = true := by
  unfold step0 at h
  split at h
  · cases h
  · split at h
    · cases h
    · split at h
      · cases h
      · cases h
        exact emitText_cover (recordErr (bumpTok st) _) _ hc
    · exact handleTok_cont_cover ctx st _ _ st2 rest2 h hc

theorem stepP_cont_cover (ctx : Ctx) (st : PState) (input : List Char)
    (st2 : PState) (rest2 : List Char) (h : stepP ctx st input = .cont st2 rest2)
    (hc : revCoverB st.revRuns st.text.length = true) :
    revCoverB st2.revRuns st2.text.length = true := by
  unfold stepP at h
  split at h
  · cases h
  · cases h
    rw [noteBytes_revRuns, noteBytes_text]
    exact step0_cont_cover ctx st input _ _ (by assumption) hc

theorem handleTok_halt_runs (ctx : Ctx) (st : PState) (t : Token) (rest : List Char)
    (r : PResult) (h : handleTok ctx st t rest = .halt r) : r.runs = st.revRuns.reverse := by
  unfold handleTok at h
  repeat' split at h
  all_goals cases h
  all_goals rfl

theorem finishResult_runs (ctx : Ctx) (st : PState) :
    (finishResult ctx st).runs = st.revRuns.reverse := by
  unfold finishResult
  repeat' split
  all_goals simp

theorem step0_halt_runs (ctx : Ctx) (st : PState) (input : List Char) (r : PResult)
    (h : step0 ctx st input = .halt r) : r.runs = st.revRuns.reverse := by
  unfold step0 at h
  split at h
  · cases h; rfl
  · split at h
    · cases h; exact finishResult_runs ctx st
    · split at h
      · cases h; rfl
      · cases h
    · exact handleTok_halt_runs ctx st _ _ r h

theorem stepP_halt_runs (ctx : Ctx) (st : PState) (input : List Char) (r : PResult)
    (h : stepP ctx st input = .halt r) : r.runs = st.revRuns.reverse := by
  unfold stepP at h
  split at h
  · cases h; exact step0_halt_runs ctx st input _ (by assumption)
  · cases h

theorem runsCoverB_append_single (xs : List Run) (r : Run) :
    ∀ (off : Nat), runsCoverB xs off r.start = true → 0 < r.length →
    runsCoverB (xs ++ [r]) off (r.start + r.length) = true := by
  induction xs with
  | nil =>
    intro off h hk
    simp only [runsCoverB, decide_eq_true_eq] at h
    simp only [List.nil_append, runsCoverB, Bool.and_eq_true, decide_eq_true_eq]
    exact ⟨⟨h.symm, hk⟩, by omega⟩
  | cons x xs ih =>
    intro off h hk
    simp only [runsCoverB, Bool.and_eq_true, decide_eq_true_eq] at h
    simp only [List.cons_append, runsCoverB, Bool.and_eq_true, decide_eq_true_eq]
    exact ⟨⟨h.1.1, h.1.2⟩, ih _ h.2 hk⟩

theorem revCover_to_runsCover (rr : List Run) : ∀ (n : Nat), revCoverB rr n = true →
    runsCoverB rr.reverse 0 n = true := by
  induction rr with
  | nil =>
    intro n h
    simp only [revCoverB, decide_eq_true_eq] at h
    simp [runsCoverB, h]
  | cons r rs ih =>
    intro n h
    simp only [revCoverB, Bool.and_eq_true, decide_eq_true_eq] at h
    rw [List.reverse_cons, h.1.1]
    exact runsCoverB_append_single rs.reverse r 0 (ih r.start h.2) h.1.2

theorem runsCoverB_sumLen (rs : List Run) : ∀ (off n : Nat),
    runsCoverB rs off n = true → off + sumLen rs = n := by
  induction rs with
  | nil =>
    intro off n h
    simp only [runsCoverB, decide_eq_true_eq] at h
    simp [sumLen, h]
  | cons r l ih =>
    intro off n h
    simp only [runsCoverB, Bool.and_eq_true, decide_eq_true_eq] at h
    have := ih (off + r.length) n h.2
    simp only [sumLen, List.foldr_cons] at this ⊢
    omega

theorem runSteps_cover (n : Nat) : ∀ (ctx : Ctx) (st : PState) (input : List Char),
    revCoverB st.revRuns st.text.length = true →
    runsCoverB (runSteps n ctx st input).runs 0 (runSteps n ctx st input).text.length = true := by
  induction n with
  | zero =>
    intro ctx st input hc
    simp only [runSteps, mkResult_runs, mkResult_text]
    exact revCover_to_runsCover st.revRuns st.text.length hc
  | succ n ih =>
    intro ctx st input hc
    cases hs : stepP ctx st input with
    | halt r =>
      rw [runSteps_succ_halt n ctx st input r hs]
      rw [stepP_halt_runs ctx st input r hs, stepP_halt_text ctx st input r hs]
      exact revCover_to_runsCover st.revRuns st.text.length hc
    | cont st2 rest =>
      rw [runSteps_succ_cont n ctx st input st2 rest hs]
      exact ih ctx st2 rest (stepP_cont_cover ctx st input st2 rest hs hc)

/-- Claim C1: for every input whose parse completes (success or tolerated
failure), the runs of the resulting document partition the text buffer:
the sum of the run text lengths equals the text length, and the runs are
contiguous in document order starting at offset zero, with no overlap and
no uncovered byte (runsCoverB). -/
theorem runs_partition_text (opts : RtfParseOptions) (cancel : Nat → Bool) (input : List Char)
    (h : (parseRTF opts cancel input).outcome = .Success ∨
         (parseRTF opts cancel input).outcome = .SuccessWithRecoveredErrors) :
    sumLen (parseRTF opts cancel input).runs = (parseRTF opts cancel input).text.length ∧
    runsCoverB (parseRTF opts cancel input).runs 0
      (parseRTF opts cancel input).text.length = true := by
  have hc : runsCoverB (parseRTF opts cancel input).runs 0
      (parseRTF opts cancel input).text.length = true := by
    unfold parseRTF
    exact runSteps_cover (input.length + 1) ⟨opts, cancel⟩ initState input rfl
  refine ⟨?_, hc⟩
  have := runsCoverB_sumLen (parseRTF opts cancel input).runs 0
    (parseRTF opts cancel input).text.length hc
  omega

/-- Witness for C1 at a concrete successfully parsed input. -/
theorem runs_partition_text_witness :
    ((parseRTF RTF_DEFAULT_OPTIONS cancelNone "\x7bhi\x7d".toList).outcome = .Success ∨
     (parseRTF RTF_DEFAULT_OPTIONS cancelNone "\x7bhi\x7d".toList).outcome =
       .SuccessWithRecoveredErrors) ∧
    sumLen (parseRTF RTF_DEFAULT_OPTIONS cancelNone "\x7bhi\x7d".toList).runs =
      (parseRTF RTF_DEFAULT_OPTIONS cancelNone "\x7bhi\x7d".toList).text.length ∧
    runsCoverB (parseRTF RTF_DEFAULT_OPTIONS cancelNone "\x7bhi\x7d".toList).runs 0
      (parseRTF RTF_DEFAULT_OPTIONS cancelNone "\x7bhi\x7d".toList).text.length = true :=
  ⟨Or.inl (by decide),
   runs_partition_text RTF_DEFAULT_OPTIONS cancelNone "\x7bhi\x7d".toList (Or.inl (by decide))⟩

/-- Claim C9: for every parsed document and every index, indexed element
access returns NULL (none) exactly when the index is out of range:
rtf_get_run doc i is none if and only if i is not below rtf_get_run_count
doc, and likewise for rtf_get_image and rtf_get_image_count; in-range
indices return a non-null element. -/
theorem indexed_access_null_iff (doc : rtf_document) (i : Nat) :
    (rtf_get_run doc i = none ↔ rtf_get_run_count doc ≤ i) ∧
    (rtf_get_image doc i = none ↔ rtf_get_image_count doc ≤ i) ∧
    ((rtf_get_run doc i).isSome = true ↔ i < rtf_get_run_count doc) ∧
    ((rtf_get_image doc i).isSome = true ↔ i < rtf_get_image_count doc) := by
  unfold rtf_get_run rtf_get_run_count rtf_get_image rtf_get_image_count
  refine ⟨List.getElem?_eq_none_iff, List.getElem?_eq_none_iff, ?_, ?_⟩
  · rw [← not_iff_not]
    simp [List.getElem?_eq_none_iff, Option.isSome_iff_ne_none]
  · rw [← not_iff_not]
    simp [List.getElem?_eq_none_iff, Option.isSome_iff_ne_none]

/- ======================== Claim C2 ======================== -/

/-- Claim C2 counterexample: parsing the input of the claim with the
default options succeeds, but the extracted text is
"Hello boldworld!", not "Hello bold world!": per the tokenizer rule of
section 4.1 the single space terminating each control word is consumed,
so the space after the control word b0 does not reach the document, and
the document carries three runs, not two styled regions. -/
theorem trivial_roundtrip_counterexample :
    (parseRTF RTF_DEFAULT_OPTIONS cancelNone rtfHelloInput).outcome = .Success ∧
    (parseRTF RTF_DEFAULT_OPTIONS cancelNone rtfHelloInput).text ≠
      "Hello bold world!".toList ∧
    (parseRTF RTF_DEFAULT_OPTIONS cancelNone rtfHelloInput).runs.length ≠ 2 := by
  refine ⟨by decide, by decide, by decide⟩

/-- Claim C2 amended: parsing the input produces the plain text
"Hello boldworld!" (the control-word delimiter spaces are consumed), and
the document contains exactly three runs: offsets 0-5 ("Hello ") with
bold false, offsets 6-9 ("bold") with bold true, and offsets 10-15
("world!") with bold false. -/
theorem trivial_roundtrip_amended :
    (parseRTF RTF_DEFAULT_OPTIONS cancelNone rtfHelloInput).outcome = .Success ∧
    (parseRTF RTF_DEFAULT_OPTIONS cancelNone rtfHelloInput).text =
      "Hello boldworld!".toList ∧
    (parseRTF RTF_DEFAULT_OPTIONS cancelNone rtfHelloInput).runs =
      [⟨0, 6, defaultStyle⟩, ⟨6, 4, boldStyle⟩, ⟨10, 6, defaultStyle⟩] := by
  refine ⟨by decide, by decide, by decide⟩

/- ======================== Claim C5: options and progress ======================== -/

theorem handleTok_cont_progress (ctx : Ctx) (st : PState) (t : Token) (rest : List Char)
    (st2 : PState) (rest2 : List Char) (h : handleTok ctx st t rest = .cont st2 rest2) :
    st2.progressEvents = st.progressEvents := by
  unfold handleTok at h
  repeat' split at h
  all_goals cases h
  all_goals (simp only [recordErr_progress, incClamped_progress, decClamped_progress,
    bumpTok_progress, pushScope_progress, deactivateTop_progress, applyCtrlWord_progress,
    emitBin_progress, emitText_progress])

theorem handleTok_halt_progress (ctx : Ctx) (st : PState) (t : Token) (rest : List Char)
    (r : PResult) (h : handleTok ctx st t rest = .halt r) :
    r.progressEvents = st.progressEvents := by
  unfold handleTok at h
  repeat' split at h
  all_goals cases h
  all_goals rfl

theorem finishResult_progress (ctx : Ctx) (st : PState) :
    (finishResult ctx st).progressEvents = st.progressEvents := by
  unfold finishResult
  repeat' split
  all_goals simp

theorem step0_cont_progress (ctx : Ctx) (st : PState) (input : List Char)
    (st2 : PState) (rest2 : List Char) (h : step0 ctx st input = .cont st2 rest2) :
    st2.progressEvents = st.progressEvents := by
  unfold step0 at h
  split at h
  · cases h
  · split at h
    · cases h
    · split at h
      · cases h
      · cases h
        simp only [emitText_progress, recordErr_progress, bumpTok_progress]
    · exact handleTok_cont_progress ctx st _ _ st2 rest2 h

theorem step0_halt_progress (ctx : Ctx) (st : PState) (input : List Char)
    (r : PResult) (h : step0 ctx st input = .halt r) :
    r.progressEvents = st.progressEvents := by
  unfold step0 at h
  split at h
  · cases h; rfl
  · split at h
    · cases h; exact finishResult_progress ctx st
    · split at h
      · cases h; rfl
      · cases h
    · exact handleTok_halt_progress ctx st _ _ r h

theorem runSteps_progress_zero (n : Nat) : ∀ (ctx : Ctx) (st : PState) (input : List Char),
    ctx.opts.progress_interval = 0 →
    (runSteps n ctx st input).progressEvents = st.progressEvents := by
  induction n with
  | zero => intro ctx st input _; simp [runSteps]
  | succ n ih =>
    intro ctx st input hz
    cases hs : stepP ctx st input with
    | halt r =>
      rw [runSteps_succ_halt n ctx st input r hs]
      unfold stepP at hs
      split at hs
      · cases hs
        exact step0_halt_progress ctx st input r (by assumption)
      · cases hs
    | cont st2 rest =>
      rw [runSteps_succ_cont n ctx st input st2 rest hs]
      rw [ih ctx st2 rest hz]
      unfold stepP at hs
      split at hs
      · cases hs
      · cases hs
        rw [noteBytes_progress_zero _ _ _ hz]
        exact step0_cont_progress ctx st input _ _ (by assumption)

/-- Claim C5: the default ParseOptions configuration (the value of
RTF_DEFAULT_OPTIONS, the value returned by the options constructor, and
the value used by the parse call that takes no options) has strict_mode
false, max_depth 100, memory_mapping_threshold 1048576 bytes and
progress_interval 65536 bytes, and a progress_interval of zero disables
progress reporting (no progress notification is ever counted). -/
theorem default_options_spec :
    RTF_DEFAULT_OPTIONS.strict_mode = false ∧
    RTF_DEFAULT_OPTIONS.max_depth = 100 ∧
    RTF_DEFAULT_OPTIONS.memory_mapping_threshold = 1048576 ∧
    RTF_DEFAULT_OPTIONS.progress_interval = 65536 ∧
    rtf2_parse_options_create = RTF_DEFAULT_OPTIONS ∧
    (∀ input : List Char,
      rtf2_parser_parse_memory input = parseRTF RTF_DEFAULT_OPTIONS cancelNone input) ∧
    (∀ (opts : RtfParseOptions) (cancel : Nat → Bool) (input : List Char),
      opts.progress_interval = 0 → (parseRTF opts cancel input).progressEvents = 0) := by
  refine ⟨rfl, rfl, rfl, rfl, rfl, fun _ => rfl, ?_⟩
  intro opts cancel input hz
  unfold parseRTF
  rw [runSteps_progress_zero (input.length + 1) ⟨opts, cancel⟩ initState input hz]
  rfl

/-- Witness for C5: the progress-disabling conjunct applied at a concrete
configuration and input. -/
theorem default_options_spec_witness :
    ({ RTF_DEFAULT_OPTIONS with progress_interval := 0 } : RtfParseOptions).progress_interval
      = 0 ∧
    (parseRTF { RTF_DEFAULT_OPTIONS with progress_interval := 0 } cancelNone
      "ab".toList).progressEvents = 0 :=
  ⟨rfl, default_options_spec.2.2.2.2.2.2
    { RTF_DEFAULT_OPTIONS with progress_interval := 0 } cancelNone "ab".toList rfl⟩

/- ======================== Claim C7: cancellation ======================== -/

theorem finishResult_not_canceled (ctx : Ctx) (st : PState) :
    (finishResult ctx st).outcome ≠ .Canceled := by
  unfold finishResult
  repeat' split
  all_goals simp

theorem handleTok_halt_not_canceled (ctx : Ctx) (st : PState) (t : Token) (rest : List Char)
    (r : PResult) (h : handleTok ctx st t rest = .halt r) : r.outcome ≠ .Canceled := by
  unfold handleTok at h
  repeat' split at h
  all_goals cases h
  all_goals simp

theorem step0_halt_not_canceled (ctx : Ctx) (st : PState) (input : List Char)
    (r : PResult) (h : step0 ctx st input = .halt r)
    (hc : ctx.cancel st.tokenCount = false) : r.outcome ≠ .Canceled := by
  unfold step0 at h
  split at h
  · rename_i hcc
    rw [hc] at hcc
    cases hcc
  · split at h
    · cases h
      exact finishResult_not_canceled ctx st
    · split at h
      · cases h
        simp
      · cases h
    · exact handleTok_halt_not_canceled ctx st _ _ r h

theorem runSteps_never_canceled (n : Nat) : ∀ (ctx : Ctx) (st : PState) (input : List Char),
    (∀ k, ctx.cancel k = false) →
    (runSteps n ctx st input).outcome ≠ .Canceled := by
  induction n with
  | zero => intro ctx st input _; simp [runSteps]
  | succ n ih =>
    intro ctx st input hc
    cases hs : stepP ctx st input with
    | halt r =>
      rw [runSteps_succ_halt n ctx st input r hs]
      unfold stepP at hs
      split at hs
      · cases hs
        exact step0_halt_not_canceled ctx st input r (by assumption) (hc st.tokenCount)
      · cases hs
    | cont st2 rest =>
      rw [runSteps_succ_cont n ctx st input st2 rest hs]
      exact ih ctx st2 rest hc

/-- Claim C7: if the cancellation check returns true before any top-level
token is processed (at token count zero), the parse halts with the
distinct Canceled outcome and zero emitted text; furthermore a parse whose
cancellation check never returns true is never Canceled (the check is what
produces the outcome), and Canceled is distinct from every hard-error
outcome. -/
theorem cancellation_behavior :
    (∀ (opts : RtfParseOptions) (cancel : Nat → Bool) (input : List Char),
      cancel 0 = true →
      (parseRTF opts cancel input).outcome = .Canceled ∧
      (parseRTF opts cancel input).text = []) ∧
    (∀ (opts : RtfParseOptions) (input : List Char),
      (parseRTF opts cancelNone input).outcome ≠ .Canceled) ∧
    (∀ k : ErrKind, (Outcome.Canceled ≠ Outcome.Failed k)) := by
  refine ⟨?_, ?_, ?_⟩
  · intro opts cancel input hc
    unfold parseRTF runSteps stepP step0
    dsimp only
    rw [if_pos (show cancel initState.tokenCount = true from hc)]
    exact ⟨rfl, rfl⟩
  · intro opts input
    exact runSteps_never_canceled (input.length + 1) ⟨opts, cancelNone⟩ initState input
      (fun _ => rfl)
  · intro k
    simp

/-- Witness for C7: an always-true cancellation check on a concrete input
yields the Canceled outcome with empty text. -/
theorem cancellation_behavior_witness :
    (fun _ : Nat => true) 0 = true ∧
    (parseRTF RTF_DEFAULT_OPTIONS (fun _ => true) "\x7bhi\x7d".toList).outcome = .Canceled ∧
    (parseRTF RTF_DEFAULT_OPTIONS (fun _ => true) "\x7bhi\x7d".toList).text = [] := by
  refine ⟨rfl, ?_⟩
  exact cancellation_behavior.1 RTF_DEFAULT_OPTIONS (fun _ => true) "\x7bhi\x7d".toList rfl

/- ======================== Claim C8: depth invariant ======================== -/

theorem pushScope_len (st : PState) (h : 1 ≤ st.stack.length) :
    (pushScope st).stack.length = st.stack.length + 1 := by
  unfold pushScope
  cases hst : st.stack with
  | nil => rw [hst] at h; simp at h
  | cons t r => simp [hst]

theorem handleTok_cont_stackInv (ctx : Ctx) (st : PState) (t : Token) (rest : List Char)
    (st2 : PState) (rest2 : List Char) (h : handleTok ctx st t rest = .cont st2 rest2)
    (h1 : 1 ≤ st.stack.length) (h2 : st.stack.length - 1 ≤ ctx.opts.max_depth) :
    1 ≤ st2.stack.length ∧ st2.stack.length - 1 ≤ ctx.opts.max_depth := by
  unfold handleTok at h
  repeat' split at h
  all_goals cases h
  all_goals (try (simp only [recordErr_stack, incClamped_stack, decClamped_stack,
    bumpTok_stack, emitText_stack, emitBin_stack]))
  all_goals (try (exact ⟨h1, h2⟩))
  · -- group open within depth: push one scope
    rename_i hck hlt
    rw [pushScope_len (bumpTok st) h1]
    have hlt2 : st.stack.length - 1 < ctx.opts.max_depth := hlt
    have he : (bumpTok st).stack.length = st.stack.length := rfl
    exact ⟨by omega, by omega⟩
  · -- group close with at least two scopes: pop one
    rename_i hck hlen
    constructor
    · show 1 ≤ st.stack.tail.length
      rw [List.length_tail]
      omega
    · show st.stack.tail.length - 1 ≤ ctx.opts.max_depth
      rw [List.length_tail]
      omega
  · -- control word opening a destination
    rw [deactivateTop_stack_len]
    exact ⟨h1, h2⟩
  · -- other control words
    rw [applyCtrlWord_stack_len]
    exact ⟨h1, h2⟩
  · -- the asterisk destination marker
    rw [deactivateTop_stack_len]
    exact ⟨h1, h2⟩

theorem step0_cont_stackInv (ctx : Ctx) (st : PState) (input : List Char)
    (st2 : PState) (rest2 : List Char) (h : step0 ctx st input = .cont st2 rest2)
    (h1 : 1 ≤ st.stack.length) (h2 : st.stack.length - 1 ≤ ctx.opts.max_depth) :
    1 ≤ st2.stack.length ∧ st2.stack.length - 1 ≤ ctx.opts.max_depth := by
  unfold step0 at h
  split at h
  · cases h
  · split at h
    · cases h
    · split at h
      · cases h
      · cases h
        simp only [emitText_stack, recordErr_stack, bumpTok_stack]
        exact ⟨h1, h2⟩
    · exact handleTok_cont_stackInv ctx st _ _ st2 rest2 h h1 h2

theorem stepP_cont_stackInv (ctx : Ctx) (st : PState) (input : List Char)
    (st2 : PState) (rest2 : List Char) (h : stepP ctx st input = .cont st2 rest2)
    (h1 : 1 ≤ st.stack.length) (h2 : st.stack.length - 1 ≤ ctx.opts.max_depth) :
    1 ≤ st2.stack.length ∧ st2.stack.length - 1 ≤ ctx.opts.max_depth := by
  unfold stepP at h
  split at h
  · cases h
  · cases h
    rw [noteBytes_stack]
    exact step0_cont_stackInv ctx st input _ _ (by assumption) h1 h2

theorem runTrace_stackInv (n : Nat) : ∀ (ctx : Ctx) (st : PState) (input : List Char),
    1 ≤ st.stack.length → st.stack.length - 1 ≤ ctx.opts.max_depth →
    ∀ s ∈ runTrace n ctx st input,
      1 ≤ s.stack.length ∧ s.stack.length - 1 ≤ ctx.opts.max_depth := by
  induction n with
  | zero =>
    intro ctx st input h1 h2 s hs
    simp only [runTrace, List.mem_singleton] at hs
    subst hs
    exact ⟨h1, h2⟩
  | succ n ih =>
    intro ctx st input h1 h2 s hs
    unfold runTrace at hs
    rcases List.mem_cons.mp hs with hh | ht
    · subst hh
      exact ⟨h1, h2⟩
    · revert ht
      split
      · intro ht
        simp at ht
      · rename_i st2 rest hsp
        intro ht
        have hi := stepP_cont_stackInv ctx st input st2 rest hsp h1 h2
        exact ih ctx st2 rest hi.1 hi.2 s ht

/-- Claim C8: throughout every parse, the group stack is never empty (the
root is never popped, so the depth is never negative) and the nesting
depth (stack length minus the root) never exceeds the configured
max_depth; moreover a GroupOpen that would exceed max_depth halts the
strict parse with DepthExceeded, and in tolerant mode is clamped to a
no-op scope: the stack is unchanged (depth not incremented) and the error
is recorded. -/
theorem depth_invariant_spec :
    (∀ (opts : RtfParseOptions) (cancel : Nat → Bool) (input : List Char) (s : PState),
      s ∈ parseTrace opts cancel input →
      1 ≤ s.stack.length ∧ s.stack.length - 1 ≤ opts.max_depth) ∧
    (∀ (ctx : Ctx) (st : PState) (rest : List Char),
      ctx.opts.strict_mode = true → ctx.cancel st.tokenCount = false →
      st.clamped = 0 → st.stack.length - 1 = ctx.opts.max_depth →
      stepP ctx st ('\x7b' :: rest) = .halt (mkResult (bumpTok st) (.Failed .DepthExceeded))) ∧
    (∀ (ctx : Ctx) (st : PState) (rest : List Char),
      ctx.opts.strict_mode = false → ctx.cancel st.tokenCount = false →
      st.clamped = 0 → st.stack.length - 1 = ctx.opts.max_depth →
      ∃ st2, stepP ctx st ('\x7b' :: rest) = .cont st2 rest ∧
        st2.stack = st.stack ∧ ErrKind.DepthExceeded ∈ st2.errors) := by
  refine ⟨?_, ?_, ?_⟩
  · intro opts cancel input s hs
    exact runTrace_stackInv (input.length + 1) ⟨opts, cancel⟩ initState input
      (by simp [initState]) (by simp [initState]) s hs
  · intro ctx st rest hsm hcan hcl hd
    have hscan : scanToken ('\x7b' :: rest) = .tok .groupOpen rest := by
      simp [scanToken]
    unfold stepP step0
    rw [hcan]
    simp only [Bool.false_eq_true, if_false]
    rw [hscan]
    dsimp only
    unfold handleTok
    dsimp only
    rw [hcl]
    simp only [Nat.lt_irrefl, if_false]
    rw [hd]
    simp only [Nat.lt_irrefl, if_false, hsm, if_true]
  · intro ctx st rest hsm hcan hcl hd
    refine ⟨noteBytes ctx.opts 1 (recordErr (incClamped (bumpTok st)) .DepthExceeded), ?_, ?_, ?_⟩
    · have hscan : scanToken ('\x7b' :: rest) = .tok .groupOpen rest := by
        simp [scanToken]
      unfold stepP step0
      rw [hcan]
      simp only [Bool.false_eq_true, if_false]
      rw [hscan]
      dsimp only
      unfold handleTok
      dsimp only
      rw [hcl]
      simp only [Nat.lt_irrefl, if_false]
      rw [hd]
      simp only [Nat.lt_irrefl, if_false, hsm, Bool.false_eq_true]
      simp [List.length_cons]
    · rw [noteBytes_stack, recordErr_stack, incClamped_stack, bumpTok_stack]
    · rw [noteBytes_errors, recordErr_errors]
      simp

/-- Witness for C8: the trace invariant applied to the initial state of a
concrete parse. -/
theorem depth_invariant_spec_witness :
    initState ∈ parseTrace RTF_DEFAULT_OPTIONS cancelNone "\x7bhi\x7d".toList ∧
    1 ≤ initState.stack.length ∧
    initState.stack.length - 1 ≤ RTF_DEFAULT_OPTIONS.max_depth :=
  ⟨by decide,
   depth_invariant_spec.1 RTF_DEFAULT_OPTIONS cancelNone "\x7bhi\x7d".toList initState
     (by decide)⟩

/- ======================== Claim C6: truncated binary ======================== -/

theorem isDigit_not_isAlpha (c : Char) (h : c.isDigit = true) : c.isAlpha = false := by
  simp only [Char.isDigit, Bool.and_eq_true, decide_eq_true_eq] at h
  have hx1 : 48 ≤ c.val.toNat := h.1
  have hx2 : c.val.toNat ≤ 57 := h.2
  simp only [Char.isAlpha, Char.isUpper, Char.isLower, Bool.or_eq_false_iff,
    Bool.and_eq_false_iff, decide_eq_false_iff_not, not_le, ge_iff_le]
  constructor
  · left
    exact fun hcon => absurd (show (65 : Nat) ≤ c.val.toNat from hcon) (by omega)
  · left
    exact fun hcon => absurd (show (97 : Nat) ≤ c.val.toNat from hcon) (by omega)

theorem isDigit_ne_dash (c : Char) (h : c.isDigit = true) : ¬(c = '-') := by
  intro he
  subst he
  simp [Char.isDigit] at h

theorem takeWhile_all_append (p : Char → Bool) (xs : List Char) (y : Char) (ys : List Char)
    (hx : ∀ c ∈ xs, p c = true) (hy : p y = false) :
    List.takeWhile p (xs ++ y :: ys) = xs := by
  induction xs with
  | nil => simp [List.takeWhile, hy]
  | cons a l ih =>
    have ha : p a = true := hx a (by simp)
    simp only [List.cons_append, List.takeWhile, ha]
    rw [show (l.append (y :: ys)) = l ++ y :: ys from rfl]
    rw [ih (fun c hc => hx c (by simp [hc]))]

theorem dropWhile_all_append (p : Char → Bool) (xs : List Char) (y : Char) (ys : List Char)
    (hx : ∀ c ∈ xs, p c = true) (hy : p y = false) :
    List.dropWhile p (xs ++ y :: ys) = y :: ys := by
  induction xs with
  | nil => simp [List.dropWhile, hy]
  | cons a l ih =>
    have ha : p a = true := hx a (by simp)
    simp only [List.cons_append, List.dropWhile, ha]
    rw [show (l.append (y :: ys)) = l ++ y :: ys from rfl]
    exact ih (fun c hc => hx c (by simp [hc]))

theorem scanToken_truncbin (ds tail : List Char) (h1 : ds ≠ [])
    (h2 : ∀ c ∈ ds, c.isDigit = true) (h3 : tail.length < digitsVal ds) :
    scanToken (binInput ds tail) = .err .TruncatedBinary tail := by
  obtain ⟨d, ds', rfl⟩ : ∃ d ds', ds = d :: ds' := by
    cases ds with
    | nil => exact absurd rfl h1
    | cons a l => exact ⟨a, l, rfl⟩
  have hd : d.isDigit = true := h2 d (List.mem_cons_self d ds')
  have hda : d.isAlpha = false := isDigit_not_isAlpha d hd
  have hb : 'b'.isAlpha = true := by decide
  have hi2 : 'i'.isAlpha = true := by decide
  have hn2 : 'n'.isAlpha = true := by decide
  have hname : List.takeWhile Char.isAlpha ('b' :: 'i' :: 'n' :: ((d :: ds') ++ ' ' :: tail))
      = ['b', 'i', 'n'] := by
    simp [List.takeWhile, hb, hi2, hn2, hda]
  have hdrop : List.dropWhile Char.isAlpha ('b' :: 'i' :: 'n' :: ((d :: ds') ++ ' ' :: tail))
      = (d :: ds') ++ ' ' :: tail := by
    simp [List.dropWhile, hb, hi2, hn2, hda]
  have hpp : parseParam ((d :: ds') ++ ' ' :: tail) =
      (some ((digitsVal (d :: ds') : Nat) : Int), ' ' :: tail) := by
    unfold parseParam
    rw [if_neg (by
      simp only [List.cons_append, List.head?]
      intro hcon
      exact isDigit_ne_dash d hd (by injection hcon))]
    rw [takeWhile_all_append Char.isDigit (d :: ds') ' ' tail h2 (by decide)]
    rw [if_neg (by simp)]
    rw [dropWhile_all_append Char.isDigit (d :: ds') ' ' tail h2 (by decide)]
  have hpos : (0 : Int) < ((digitsVal (d :: ds') : Nat) : Int) :=
    Int.natCast_pos.mpr (by omega)
  have hlen : tail.length < ((digitsVal (d :: ds') : Nat) : Int).toNat := by
    rw [Int.toNat_natCast]
    exact h3
  unfold binInput scanToken
  rw [if_neg (by decide), if_neg (by decide), if_neg (by decide), if_pos rfl]
  unfold scanControl
  dsimp only
  rw [if_pos hb, hname, hdrop, hpp]
  rw [if_neg (by decide)]
  try dsimp only
  rw [show eatSpace (' ' :: tail) = tail from by unfold eatSpace; simp]
  try rw [if_pos rfl]
  try dsimp only
  rw [if_pos hpos, if_pos hlen]

theorem emitText_text_active (st : PState) (s : List Char) (h : headActive st = true) :
    (emitText st s).text = st.text ++ s := by
  unfold headActive at h
  unfold emitText
  cases hst : st.stack with
  | nil =>
    rw [hst] at h
    cases h
  | cons t r =>
    rw [hst] at h
    dsimp only
    by_cases hs : s = []
    · subst hs
      rw [if_neg (by simp)]
      simp
    · rw [if_pos ⟨h, hs⟩]

/-- Claim C6: whenever the parser meets a bin control word whose declared
length exceeds the number of remaining bytes, strict mode halts with the
distinct TruncatedBinary error, while tolerant mode records
TruncatedBinary and treats the remaining bytes as literal text (appended
to the text buffer when the current scope is active) before reaching end
of input. -/
theorem truncated_bin_behavior (ctx : Ctx) (st : PState) (ds tail : List Char)
    (h1 : ds ≠ []) (h2 : ∀ c ∈ ds, c.isDigit = true) (h3 : tail.length < digitsVal ds)
    (hcan : ctx.cancel st.tokenCount = false) (hact : headActive st = true) :
    (ctx.opts.strict_mode = true →
      stepP ctx st (binInput ds tail) = .halt (mkResult st (.Failed .TruncatedBinary))) ∧
    (ctx.opts.strict_mode = false →
      ∃ st2, stepP ctx st (binInput ds tail) = .cont st2 [] ∧
        st2.text = st.text ++ tail ∧ ErrKind.TruncatedBinary ∈ st2.errors) := by
  constructor
  · intro hsm
    unfold stepP step0
    rw [hcan]
    simp only [Bool.false_eq_true, if_false]
    rw [scanToken_truncbin ds tail h1 h2 h3]
    dsimp only
    rw [if_pos hsm]
  · intro hsm
    refine ⟨noteBytes ctx.opts ((binInput ds tail).length - ([] : List Char).length)
      (emitText (recordErr (bumpTok st) .TruncatedBinary) tail), ?_, ?_, ?_⟩
    · unfold stepP step0
      rw [hcan]
      simp only [Bool.false_eq_true, if_false]
      rw [scanToken_truncbin ds tail h1 h2 h3]
      dsimp only
      rw [hsm]
      simp
    · rw [noteBytes_text]
      exact emitText_text_active (recordErr (bumpTok st) .TruncatedBinary) tail hact
    · rw [noteBytes_errors, emitText_errors, recordErr_errors]
      simp

/-- Witness for C6: the bin control word declaring five bytes with only
two remaining, from the initial state, in both modes. -/
theorem truncated_bin_behavior_witness :
    (stepP ⟨{ RTF_DEFAULT_OPTIONS with strict_mode := true }, cancelNone⟩ initState
       (binInput ['5'] ['a', 'b']) =
       .halt (mkResult initState (.Failed .TruncatedBinary))) ∧
    (∃ st2, stepP ⟨RTF_DEFAULT_OPTIONS, cancelNone⟩ initState (binInput ['5'] ['a', 'b']) =
       .cont st2 [] ∧
       st2.text = initState.text ++ ['a', 'b'] ∧ ErrKind.TruncatedBinary ∈ st2.errors) :=
  ⟨(truncated_bin_behavior ⟨{ RTF_DEFAULT_OPTIONS with strict_mode := true }, cancelNone⟩
      initState ['5'] ['a', 'b'] (by decide) (by decide) (by decide) rfl rfl).1 rfl,
   (truncated_bin_behavior ⟨RTF_DEFAULT_OPTIONS, cancelNone⟩
      initState ['5'] ['a', 'b'] (by decide) (by decide) (by decide) rfl rfl).2 rfl⟩

/- ======================== Claim C3: group balance ======================== -/

theorem finishResult_no_unbalanced (ctx : Ctx) (st : PState)
    (herr : ErrKind.UnbalancedGroup ∉ st.errors) :
    (finishResult ctx st).outcome ≠ .Failed .UnbalancedGroup ∧
    ErrKind.UnbalancedGroup ∉ (finishResult ctx st).errors := by
  unfold finishResult
  repeat' split
  all_goals refine ⟨by simp, ?_⟩
  all_goals simp only [mkResult_errors, recordErr_errors]
  all_goals (try exact herr)
  rw [List.mem_append]
  rintro (hmem | hmem)
  · exact herr hmem
  · simp at hmem

theorem runSteps_strict_no_unbalanced (n : Nat) :
    ∀ (ctx : Ctx) (st : PState) (input : List Char),
    ctx.opts.strict_mode = true → st.clamped = 0 → 1 ≤ st.stack.length →
    ErrKind.UnbalancedGroup ∉ st.errors →
    braceSafeB n (st.stack.length - 1) ctx.opts.max_depth input = true →
    (runSteps n ctx st input).outcome ≠ .Failed .UnbalancedGroup ∧
    ErrKind.UnbalancedGroup ∉ (runSteps n ctx st input).errors := by
  induction n with
  | zero =>
    intro ctx st input _ _ _ herr _
    simp only [runSteps, mkResult_outcome, mkResult_errors]
    exact ⟨by simp, herr⟩
  | succ n ih =>
    intro ctx st input hsm hcl hst herr hsafe
    by_cases hc : ctx.cancel st.tokenCount = true
    · have hs : stepP ctx st input = .halt (mkResult st .Canceled) := by
        unfold stepP step0
        rw [if_pos hc]
      rw [runSteps_succ_halt n ctx st input _ hs]
      exact ⟨by simp, herr⟩
    · cases hscan : scanToken input with
      | done =>
        have hs : stepP ctx st input = .halt (finishResult ctx st) := by
          unfold stepP step0
          rw [if_neg hc, hscan]
        rw [runSteps_succ_halt n ctx st input _ hs]
        exact finishResult_no_unbalanced ctx st herr
      | err k rem =>
        have hk := scanToken_err_kind input k rem hscan
        have hkne : k ≠ .UnbalancedGroup := by
          rcases hk with rfl | rfl | rfl <;> simp
        have hs : stepP ctx st input = .halt (mkResult st (.Failed k)) := by
          unfold stepP step0
          rw [if_neg hc, hscan]
          dsimp only
          rw [if_pos hsm]
        rw [runSteps_succ_halt n ctx st input _ hs]
        constructor
        · simp only [mkResult_outcome, ne_eq, Outcome.Failed.injEq]
          exact hkne
        · exact herr
      | tok t rest =>
        unfold braceSafeB at hsafe
        rw [hscan] at hsafe
        cases t with
        | groupOpen =>
          rw [Bool.and_eq_true, decide_eq_true_eq] at hsafe
          have hs : stepP ctx st input =
              .cont (noteBytes ctx.opts (input.length - rest.length)
                (pushScope (bumpTok st))) rest := by
            unfold stepP step0
            rw [if_neg hc, hscan]
            dsimp only
            unfold handleTok
            dsimp only
            rw [if_neg (by rw [hcl]; omega)]
            rw [if_pos hsafe.1]
          rw [runSteps_succ_cont n ctx st input _ rest hs]
          apply ih ctx _ rest hsm
          · rw [noteBytes_clamped, pushScope_clamped, bumpTok_clamped]
            exact hcl
          · rw [noteBytes_stack, pushScope_len (bumpTok st) hst, bumpTok_stack]
            omega
          · rw [noteBytes_errors, pushScope_errors, bumpTok_errors]
            exact herr
          · rw [noteBytes_stack, pushScope_len (bumpTok st) hst, bumpTok_stack]
            have e : st.stack.length + 1 - 1 = (st.stack.length - 1) + 1 := by omega
            rw [e]
            exact hsafe.2
        | groupClose =>
          rw [Bool.and_eq_true, decide_eq_true_eq] at hsafe
          have hlen2 : 2 ≤ st.stack.length := by omega
          have hs : stepP ctx st input =
              .cont (noteBytes ctx.opts (input.length - rest.length)
                ({ bumpTok st with stack := st.stack.tail })) rest := by
            unfold stepP step0
            rw [if_neg hc, hscan]
            dsimp only
            unfold handleTok
            dsimp only
            rw [if_neg (by rw [hcl]; omega)]
            rw [if_pos hlen2]
          rw [runSteps_succ_cont n ctx st input _ rest hs]
          apply ih ctx _ rest hsm
          · rw [noteBytes_clamped]
            exact hcl
          · rw [noteBytes_stack]
            show 1 ≤ st.stack.tail.length
            rw [List.length_tail]
            omega
          · rw [noteBytes_errors]
            exact herr
          · rw [noteBytes_stack]
            show braceSafeB n (st.stack.tail.length - 1) ctx.opts.max_depth rest = true
            rw [List.length_tail]
            have e : st.stack.length - 1 - 1 = (st.stack.length - 1) - 1 := rfl
            rw [e]
            exact hsafe.2
        | ctrlWord name param =>
          dsimp only at hsafe
          by_cases hdest : isDestWord name = true
          · have hs : stepP ctx st input =
                .cont (noteBytes ctx.opts (input.length - rest.length)
                  (deactivateTop (bumpTok st))) rest := by
              unfold stepP step0
              rw [if_neg hc, hscan]
              dsimp only
              unfold handleTok
              dsimp only
              rw [if_pos hdest]
            rw [runSteps_succ_cont n ctx st input _ rest hs]
            apply ih ctx _ rest hsm
            · rw [noteBytes_clamped, deactivateTop_clamped, bumpTok_clamped]
              exact hcl
            · rw [noteBytes_stack, deactivateTop_stack_len, bumpTok_stack]
              exact hst
            · rw [noteBytes_errors, deactivateTop_errors, bumpTok_errors]
              exact herr
            · rw [noteBytes_stack, deactivateTop_stack_len, bumpTok_stack]
              exact hsafe
          · have hs : stepP ctx st input =
                .cont (noteBytes ctx.opts (input.length - rest.length)
                  (applyCtrlWord (bumpTok st) name param)) rest := by
              unfold stepP step0
              rw [if_neg hc, hscan]
              dsimp only
              unfold handleTok
              dsimp only
              rw [if_neg hdest]
            rw [runSteps_succ_cont n ctx st input _ rest hs]
            apply ih ctx _ rest hsm
            · rw [noteBytes_clamped, applyCtrlWord_clamped, bumpTok_clamped]
              exact hcl
            · rw [noteBytes_stack, applyCtrlWord_stack_len, bumpTok_stack]
              exact hst
            · rw [noteBytes_errors, applyCtrlWord_errors, bumpTok_errors]
              exact herr
            · rw [noteBytes_stack, applyCtrlWord_stack_len, bumpTok_stack]
              exact hsafe
        | ctrlSym c =>
          dsimp only at hsafe
          by_cases hstar : c = '*'
          · have hs : stepP ctx st input =
                .cont (noteBytes ctx.opts (input.length - rest.length)
                  (deactivateTop (bumpTok st))) rest := by
              unfold stepP step0
              rw [if_neg hc, hscan]
              dsimp only
              unfold handleTok
              dsimp only
              rw [if_pos hstar]
            rw [runSteps_succ_cont n ctx st input _ rest hs]
            apply ih ctx _ rest hsm
            · rw [noteBytes_clamped, deactivateTop_clamped, bumpTok_clamped]
              exact hcl
            · rw [noteBytes_stack, deactivateTop_stack_len, bumpTok_stack]
              exact hst
            · rw [noteBytes_errors, deactivateTop_errors, bumpTok_errors]
              exact herr
            · rw [noteBytes_stack, deactivateTop_stack_len, bumpTok_stack]
              exact hsafe
          · by_cases hlit : c = '\\' ∨ c = '\x7b' ∨ c = '\x7d'
            · have hs : stepP ctx st input =
                  .cont (noteBytes ctx.opts (input.length - rest.length)
                    (emitText (bumpTok st) [c])) rest := by
                unfold stepP step0
                rw [if_neg hc, hscan]
                dsimp only
                unfold handleTok
                dsimp only
                rw [if_neg hstar, if_pos hlit]
              rw [runSteps_succ_cont n ctx st input _ rest hs]
              apply ih ctx _ rest hsm
              · rw [noteBytes_clamped, emitText_clamped, bumpTok_clamped]
                exact hcl
              · rw [noteBytes_stack, emitText_stack, bumpTok_stack]
                exact hst
              · rw [noteBytes_errors, emitText_errors, bumpTok_errors]
                exact herr
              · rw [noteBytes_stack, emitText_stack, bumpTok_stack]
                exact hsafe
            · have hs : stepP ctx st input =
                  .cont (noteBytes ctx.opts (input.length - rest.length)
                    (bumpTok st)) rest := by
                unfold stepP step0
                rw [if_neg hc, hscan]
                dsimp only
                unfold handleTok
                dsimp only
                rw [if_neg hstar, if_neg hlit]
              rw [runSteps_succ_cont n ctx st input _ rest hs]
              apply ih ctx _ rest hsm
              · rw [noteBytes_clamped, bumpTok_clamped]
                exact hcl
              · rw [noteBytes_stack, bumpTok_stack]
                exact hst
              · rw [noteBytes_errors, bumpTok_errors]
                exact herr
              · rw [noteBytes_stack, bumpTok_stack]
                exact hsafe
        | textTok s =>
          dsimp only at hsafe
          have hs : stepP ctx st input =
              .cont (noteBytes ctx.opts (input.length - rest.length)
                (emitText (bumpTok st) s)) rest := by
            unfold stepP step0
            rw [if_neg hc, hscan]
            dsimp only
            unfold handleTok
            dsimp only
          rw [runSteps_succ_cont n ctx st input _ rest hs]
          apply ih ctx _ rest hsm
          · rw [noteBytes_clamped, emitText_clamped, bumpTok_clamped]
            exact hcl
          · rw [noteBytes_stack, emitText_stack, bumpTok_stack]
            exact hst
          · rw [noteBytes_errors, emitText_errors, bumpTok_errors]
            exact herr
          · rw [noteBytes_stack, emitText_stack, bumpTok_stack]
            exact hsafe
        | binTok bs =>
          dsimp only at hsafe
          have hs : stepP ctx st input =
              .cont (noteBytes ctx.opts (input.length - rest.length)
                (emitBin (bumpTok st) bs)) rest := by
            unfold stepP step0
            rw [if_neg hc, hscan]
            dsimp only
            unfold handleTok
            dsimp only
          rw [runSteps_succ_cont n ctx st input _ rest hs]
          apply ih ctx _ rest hsm
          · rw [noteBytes_clamped, emitBin_clamped, bumpTok_clamped]
            exact hcl
          · rw [noteBytes_stack, emitBin_stack, bumpTok_stack]
            exact hst
          · rw [noteBytes_errors, emitBin_errors, bumpTok_errors]
            exact herr
          · rw [noteBytes_stack, emitBin_stack, bumpTok_stack]
            exact hsafe

/-- Claim C3 counterexample: the input of one close brace followed by one
open brace has equal counts of the two brace bytes, its nesting depth
never exceeds the default max_depth of 100 (no initial segment of the
input even contains more than one open brace), yet parsing it in strict
mode reports UnbalancedGroup: the leading close brace pops the root. -/
theorem group_balance_counterexample :
    unbalancedInput.count '\x7b' = unbalancedInput.count '\x7d' ∧
    (unbalancedInput.take 0).count '\x7b' ≤ 100 ∧
    (unbalancedInput.take 1).count '\x7b' ≤ 100 ∧
    (unbalancedInput.take 2).count '\x7b' ≤ 100 ∧
    (parseRTF { RTF_DEFAULT_OPTIONS with strict_mode := true } cancelNone
      unbalancedInput).outcome = .Failed .UnbalancedGroup := by
  refine ⟨by decide, by decide, by decide, by decide, by decide⟩

/-- Claim C3 amended: for every input in which, at the token level, the
counts of GroupOpen and GroupClose tokens are equal and the group
structure is safe (every GroupClose arrives at positive depth — no close
precedes its open — and the nesting depth never exceeds max_depth),
parsing in strict mode never reports UnbalancedGroup, neither as the
terminal outcome nor as a recorded error. -/
theorem group_balance_amended (opts : RtfParseOptions) (cancel : Nat → Bool)
    (input : List Char) (hsm : opts.strict_mode = true)
    (hcount : openTokCount (input.length + 1) input = closeTokCount (input.length + 1) input)
    (hsafe : braceSafeB (input.length + 1) 0 opts.max_depth input = true) :
    (parseRTF opts cancel input).outcome ≠ .Failed .UnbalancedGroup ∧
    ErrKind.UnbalancedGroup ∉ (parseRTF opts cancel input).errors := by
  unfold parseRTF
  exact runSteps_strict_no_unbalanced (input.length + 1) ⟨opts, cancel⟩ initState input
    hsm rfl (by simp [initState]) (by simp [initState]) hsafe

/-- Witness for the amended C3 at a concrete balanced strict-mode parse. -/
theorem group_balance_amended_witness :
    ({ RTF_DEFAULT_OPTIONS with strict_mode := true } : RtfParseOptions).strict_mode = true ∧
    openTokCount ("\x7ba\x7d".toList.length + 1) "\x7ba\x7d".toList =
      closeTokCount ("\x7ba\x7d".toList.length + 1) "\x7ba\x7d".toList ∧
    braceSafeB ("\x7ba\x7d".toList.length + 1) 0
      ({ RTF_DEFAULT_OPTIONS with strict_mode := true } : RtfParseOptions).max_depth
      "\x7ba\x7d".toList = true ∧
    (parseRTF { RTF_DEFAULT_OPTIONS with strict_mode := true } cancelNone
      "\x7ba\x7d".toList).outcome ≠ .Failed .UnbalancedGroup ∧
    ErrKind.UnbalancedGroup ∉ (parseRTF { RTF_DEFAULT_OPTIONS with strict_mode := true }
      cancelNone "\x7ba\x7d".toList).errors :=
  ⟨rfl, by decide, by decide,
   group_balance_amended { RTF_DEFAULT_OPTIONS with strict_mode := true } cancelNone
     "\x7ba\x7d".toList rfl (by decide) (by decide)⟩
